import Mathlib

/-!
A shallow embedding of the pyecore runtime core (src/pyecore/ecore.py and
src/pyecore/commands.py): the reflective metamodel fragment the claims need
(classes, features, type checking), the instance layer (dynamic attribute
get/set with containment and opposite bookkeeping), the typed collections
(EList, EOrderedSet with the monkey-patched insert/pop), the command model
(Set, Add, Remove, Move, Compound) and the command stack.

Python conventions are embedded explicitly:
* exceptions are `Err` values; functions that can raise return the error
  together with the state at raise time (Python exceptions do not roll back
  mutations already performed);
* `None` is `Value.vnull`; Python truthiness is `pyTruthy`;
* Python list indexing (negative indices, IndexError) is `pyNorm`/`pyListPop`,
  and the clamping `list.insert` is `pyListInsert`;
* object identity is an object id (`Nat`); the heap is `World`.
-/

set_option maxRecDepth 4000

deriving instance DecidableEq for Except

namespace PyEcore

/-- The Python exceptions raised by the embedded code.  `cannotExecute` and
`emptyStack` are both `ValueError` in the source, distinguished here by their
message; `keyEmpty` is the `KeyError('Set is empty')` of the patched `pop`;
`moveArgsError` the `ValueError` of `Move.__init__`. -/
inductive Err
  | badValue
  | attributeError
  | nameError
  | indexError
  | valueError
  | typeError
  | keyEmpty
  | keyError
  | cannotExecute
  | emptyStack
  | moveArgsError
  deriving DecidableEq

/-- Runtime values: `None`, Python ints/strings/bools, model elements
(by object id), enum literals (by literal name; literal objects live at the
meta level and are identified by their name here), and references to a
materialized typed collection, identified by the owning object and the
feature name under which it is stored. -/
inductive Value
  | vnull
  | vint (n : Int)
  | vstr (s : String)
  | vbool (b : Bool)
  | vobj (oid : Nat)
  | vlit (lname : String)
  | vcoll (oid : Nat) (fname : String)
  deriving DecidableEq

/-- The host (Python) type underlying an `EDataType`. -/
inductive HostType
  | hint
  | hstr
  | hbool
  | hdict
  deriving DecidableEq

/-- The backing state of the `ordered_set` package's `OrderedSet`: the item
sequence `items` and the index dictionary `map` (key to position), the two
structures the monkey-patched `insert`/`pop` of commands.py manipulate.  The
dictionary is an association list in insertion order; map values are `Int`
because the patched `insert` stores the raw (possibly negative) index. -/
structure OSet where
  items : List Value := []
  map : List (Value × Int) := []
  deriving DecidableEq

/-- A stored instance slot: a scalar value, or the backing store of a
materialized typed collection (EList, EOrderedSet or ESet). -/
inductive Slot
  | val (v : Value)
  | lst (l : List Value)
  | oset (s : OSet)
  | eset (l : List Value)
  deriving DecidableEq

/-- A classifier used as a feature type: a data type (with its host type;
all embedded data types have the identity `from_string`, which is exact for
`EString`-like types, the only ones whose values can be strings and pass the
type check), an enum (by its literal names), or a class (by class id). -/
inductive TypeRef
  | dt (host : HostType)
  | en (lits : List String)
  | cls (cid : Nat)
  deriving DecidableEq

/-- The fields of `feature.eOpposite` that the source reads on the opposite
feature object: its `name` and its `many` flag.  The opposite feature itself
is resolved by name on the target object's class, exactly as the source's
attribute accesses do. -/
structure OppInfo where
  oname : String
  many : Bool
  deriving DecidableEq

/-- What `Core.setattr` line 98 and `ECollection._update_container` assign to
`_containment_feature`: normally the feature (kept by name), but the second
branch of `_update_container` assigns the raw new value instead. -/
inductive CFVal
  | byName (fname : String)
  | byObj (v : Value)
  deriving DecidableEq

/-- An `EStructuralFeature`: `isRef` distinguishes `EReference` from
`EAttribute`.  `defaultValue` is the effective default that `Core.getattr`
computes for an unset scalar slot (for attributes the harmonized
`default_value`; note that for references the source leaks the class-level
`EAttribute` descriptor object as the default, so a model that relies on
reference defaults must put the corresponding meta object here). -/
structure FeatD where
  name : String
  eType : TypeRef
  isRef : Bool := false
  upperBound : Int := 1
  ordered : Bool := true
  unique : Bool := true
  containment : Bool := false
  eOpposite : Option OppInfo := none
  defaultValue : Value := .vnull
  deriving DecidableEq

/-- `ETypedElement.many`: `upperBound > 1 or upperBound < 0`. -/
def FeatD.many (f : FeatD) : Bool :=
  f.upperBound > 1 || f.upperBound < 0

/-- An `EClass`: name, abstract flag, superclass ids, owned features. -/
structure ClassD where
  cname : String
  abstract : Bool := false
  superTypes : List Nat := []
  features : List FeatD := []
  deriving DecidableEq

/-- A model element: its metaclass, its slot dictionary, and the bookkeeping
fields `_container`, `_containment_feature`, `_isready` and `_isset`. -/
structure Obj where
  classId : Nat
  slots : List (String × Slot) := []
  container : Option Nat := none
  containmentFeature : Option CFVal := none
  isready : Bool := true
  isset : List String := []
  deriving DecidableEq

/-- The heap: object id to object. -/
structure World where
  objs : List (Nat × Obj) := []
  deriving DecidableEq

/-- Dictionary update with Python semantics: an existing key is updated in
place (order preserved), a new key is appended. -/
def assocSet {α β : Type} [BEq α] : List (α × β) → α → β → List (α × β)
  | [], k, v => [(k, v)]
  | (k', v') :: t, k, v =>
      if k' == k then (k, v) :: t else (k', v') :: assocSet t k v

def getObj (w : World) (oid : Nat) : Option Obj :=
  List.lookup oid w.objs

def setObj (w : World) (oid : Nat) (o : Obj) : World :=
  { objs := assocSet w.objs oid o }

def lookupSlot (w : World) (oid : Nat) (fname : String) : Option Slot :=
  (getObj w oid).bind fun o => List.lookup fname o.slots

/-- `object.__setattr__`: store a slot on an object (no-op on a dangling id,
which cannot arise for ids of live objects). -/
def rawSetSlot (w : World) (oid : Nat) (fname : String) (s : Slot) : World :=
  match getObj w oid with
  | none => w
  | some o => setObj w oid { o with slots := assocSet o.slots fname s }

/-- Assign `_container` and `_containment_feature` of an object. -/
def setContainment (w : World) (oid : Nat) (c : Option Nat) (cf : Option CFVal) :
    World :=
  match getObj w oid with
  | none => w
  | some o => setObj w oid { o with container := c, containmentFeature := cf }

/-- `self._isset.append(name)`. -/
def addIsset (w : World) (oid : Nat) (fname : String) : World :=
  match getObj w oid with
  | none => w
  | some o => setObj w oid { o with isset := o.isset ++ [fname] }

/-- Python truthiness of a value (a collection reference is truthy when the
referenced collection is non-empty). -/
def pyTruthy (w : World) : Value → Bool
  | .vnull => false
  | .vint n => n != 0
  | .vstr s => s ≠ ""
  | .vbool b => b
  | .vobj _ => true
  | .vlit _ => true
  | .vcoll oid fname =>
      match lookupSlot w oid fname with
      | some (.lst l) => l ≠ []
      | some (.oset s) => s.items ≠ []
      | some (.eset l) => l ≠ []
      | _ => false

/-- `isinstance(value, EObject)` restricted to representable values: only
model elements.  (Enum literal objects are `EObject`s in the source, but a
literal can never reach the branches guarded by this test, because they sit
behind a reference whose type check a literal fails.) -/
def isObjVal : Value → Bool
  | .vobj _ => true
  | _ => false

def objIdOpt : Value → Option Nat
  | .vobj oid => some oid
  | _ => none

/-- The value assigned to `_containment_feature` by the second branch of
`_update_container` (the raw new value; `None` clears the field). -/
def cfOfValue : Value → Option CFVal
  | .vnull => none
  | v => some (.byObj v)

/-- `EClass.eAllSuperTypes()`: the transitive closure over `eSuperTypes`,
excluding the class itself, de-duplicated; the source returns a set whose
iteration order is unspecified, so only membership in this list is relied
on.  Recursion is bounded by a fuel argument; `ct.length` steps reach the
closure on any acyclic table (the source does not terminate on cycles, which
the spec rules out). -/
def eAllSuperTypes (ct : List ClassD) : Nat → Nat → List Nat
  | 0, _ => []
  | fuel + 1, cid =>
      match ct[cid]? with
      | none => []
      | some c =>
          (c.superTypes.map fun s => s :: eAllSuperTypes ct fuel s).flatten.dedup

/-- `EClass.eAllStructuralFeatures()`: own features followed by the features
of every transitive supertype. -/
def eAllStructuralFeatures (ct : List ClassD) (cid : Nat) : List FeatD :=
  match ct[cid]? with
  | none => []
  | some c =>
      c.features ++
        ((eAllSuperTypes ct ct.length cid).map fun s =>
          ((ct[s]?).map ClassD.features).getD []).flatten

/-- `EClass.findEStructuralFeature(name)`: first feature with that name in
the own-first traversal. -/
def findEStructuralFeature (ct : List ClassD) (cid : Nat) (fname : String) :
    Option FeatD :=
  (eAllStructuralFeatures ct cid).find? fun f => f.name == fname

/-- Host type membership, `isinstance(obj, _type.eType)`: a Python `bool` is
also an `int`. -/
def hostMatches : Value → HostType → Bool
  | .vint _, .hint => true
  | .vbool _, .hint => true
  | .vbool _, .hbool => true
  | .vstr _, .hstr => true
  | _, _ => false

/-- `EEnum.__contains__`: a literal of the enum, or a name in its literal
set. -/
def litMember (lits : List String) : Value → Bool
  | .vlit n => lits.contains n
  | .vstr s => lits.contains s
  | _ => false

/-- `EcoreUtils.isinstance(obj, _type)`: `None` satisfies any type; enums by
membership; data types by host type; classes by `eClass` identity or
supertype membership (a non-element value never satisfies a class). -/
def EcoreUtils.isinstance (ct : List ClassD) (w : World) (v : Value) :
    TypeRef → Bool
  | .en lits => v = .vnull || litMember lits v
  | .dt host => v = .vnull || hostMatches v host
  | .cls cid =>
      v = .vnull ||
        match v with
        | .vobj oid =>
            match getObj w oid with
            | some o =>
                o.classId == cid ||
                  (eAllSuperTypes ct ct.length o.classId).contains cid
            | none => false
        | _ => false

/-! ## Python list primitives -/

/-- Normalize a Python list index (negative indices count from the end);
`none` means `IndexError`. -/
def pyNorm (n : Nat) (i : Int) : Option Nat :=
  if i < 0 then
    let j := i + n
    if 0 ≤ j ∧ j < n then some j.toNat else none
  else if i < n then some i.toNat else none

/-- Python `l[i]`. -/
def pyListGet (l : List Value) (i : Int) : Except Err Value :=
  match pyNorm l.length i with
  | none => .error .indexError
  | some j =>
      match l[j]? with
      | some v => .ok v
      | none => .error .indexError

/-- Python `l.pop(i)`: strict bounds (raises `IndexError`), negative
indices allowed. -/
def pyListPop (l : List Value) (i : Int) : Except Err (Value × List Value) :=
  match pyNorm l.length i with
  | none => .error .indexError
  | some j =>
      match l[j]? with
      | some v => .ok (v, l.eraseIdx j)
      | none => .error .indexError

/-- The index at which Python `list.insert(i, x)` actually places `x`:
clamped into `[0, len]` (slice-index semantics). -/
def pySliceIdx (n : Nat) (i : Int) : Nat :=
  if i < 0 then (i + n).toNat else min i.toNat n

/-- Python `l.insert(i, x)` (never raises; clamps the index). -/
def pyListInsert (l : List Value) (i : Int) (v : Value) : List Value :=
  l.insertIdx (pySliceIdx l.length i) v

/-- Python `l.index(v)`: first position of `v`, `ValueError` when absent. -/
def pyListIndex (l : List Value) (v : Value) : Except Err Nat :=
  match l.findIdx? (· == v) with
  | some i => .ok i
  | none => .error .valueError

/-- Python `l.remove(v)`: drop the first occurrence, `ValueError` when
absent. -/
def pyListRemove (l : List Value) (v : Value) : Except Err (List Value) :=
  match l.findIdx? (· == v) with
  | some i => .ok (l.eraseIdx i)
  | none => .error .valueError

/-! ## The monkey-patched OrderedSet operations (commands.py lines 12-53)
and the base operations of the external `ordered_set` package that the
collection layer reaches (`add`, `discard`). -/

def osLookup (m : List (Value × Int)) (k : Value) : Option Int :=
  List.lookup k m

def osErase (m : List (Value × Int)) (k : Value) : List (Value × Int) :=
  m.eraseP fun p => p.1 == k

/-- The patched `insert(self, index, key)`: no-op when `key` is already in
`self.map`; otherwise `self.items.insert(index, key)` (clamping list
insert), `self.map[key] = index`, then every map value `>= index` is
incremented - including the entry just added for `key` itself. -/
def osInsert (s : OSet) (index : Int) (key : Value) : OSet :=
  if (osLookup s.map key).isSome then s
  else
    let items := pyListInsert s.items index key
    let m := assocSet s.map key index
    let m := m.map fun p => (p.1, if p.2 ≥ index then p.2 + 1 else p.2)
    { items := items, map := m }

/-- The patched `pop(self, index=None)`: `KeyError('Set is empty')` on an
empty set; without an index, removes the tail (no map shifting); with an
index, removes at that position (Python indexing; `IndexError` when out of
range) and decrements every map value `>= index` (compared against the raw
index argument, as the source does). -/
def osPop (s : OSet) (index : Option Int) : Except Err (Value × OSet) :=
  if s.items = [] then .error .keyEmpty
  else
    match index with
    | none =>
        match pyListPop s.items (-1) with
        | .error e => .error e
        | .ok (elem, items) =>
            .ok (elem, { items := items, map := osErase s.map elem })
    | some i =>
        match pyListPop s.items i with
        | .error e => .error e
        | .ok (elem, items) =>
            let m := osErase s.map elem
            let m := m.map fun p => (p.1, if p.2 ≥ i then p.2 - 1 else p.2)
            .ok (elem, { items := items, map := m })

/-- The `add` of the external `ordered_set` package (reached through
`EAbstractSet.add`): append the key at the tail unless already present. -/
def osAdd (s : OSet) (key : Value) : OSet :=
  if (osLookup s.map key).isSome then s
  else { items := s.items ++ [key], map := assocSet s.map key s.items.length }

/-- The `discard`/`remove` of the external `ordered_set` package: delete the
key and decrement the map values of later positions (`KeyError` when
absent, as `MutableSet.remove` raises). -/
def osRemove (s : OSet) (key : Value) : Except Err OSet :=
  match osLookup s.map key with
  | none => .error .keyError
  | some i =>
      match pyListPop s.items i with
      | .error e => .error e
      | .ok (_, items) =>
          let m := osErase s.map key
          let m := m.map fun p => (p.1, if p.2 ≥ i then p.2 - 1 else p.2)
          .ok { items := items, map := m }

/-! ## Typed collections (ecore.py lines 176-297) -/

/-- `ECollection.create(owner, feature)`: the collection variant chosen from
`(feature.ordered, feature.unique)`, created empty. -/
def materializedFor (f : FeatD) : Slot :=
  if f.ordered && f.unique then .oset {}
  else if f.ordered && !f.unique then .lst []
  else if f.unique then .eset []
  else .lst []

/-- The `_efeature` of the collection stored under `fname` on `oid`
(resolved by name on the owner's class, which is how every attribute access
reaches it). -/
def collFeature (ct : List ClassD) (w : World) (oid : Nat) (fname : String) :
    Option FeatD :=
  (getObj w oid).bind fun o => findEStructuralFeature ct o.classId fname

/-- `ECollection.check(value)`: `BadValueError` unless the value satisfies
the `isinstance` rule for the feature's type. -/
def ECollection.check (ct : List ClassD) (w : World) (oid : Nat)
    (fname : String) (v : Value) : Option Err :=
  match collFeature ct w oid fname with
  | none => some .attributeError
  | some f =>
      if EcoreUtils.isinstance ct w v f.eType then none else some .badValue

/-- `ECollection._update_container(value, previous_value)`: on a containment
reference, with no previous value attach `value` to the collection's owner;
with a previous value the source assigns the raw `value` into the previous
element's `_container`/`_containment_feature` fields (the only live call of
that branch passes `value = None`, detaching the element).  Assigning an
attribute of a non-element raises. -/
def ECollection.updateContainer (ct : List ClassD) (w : World) (oid : Nat)
    (fname : String) (value previous : Value) : Option Err × World :=
  match collFeature ct w oid fname with
  | none => (some .attributeError, w)
  | some f =>
      if !f.isRef then (none, w)
      else if f.containment && !(pyTruthy w previous) then
        match value with
        | .vobj v => (none, setContainment w v (some oid) (some (.byName fname)))
        | _ => (some .attributeError, w)
      else if f.containment && pyTruthy w previous then
        match previous with
        | .vobj p => (none, setContainment w p (objIdOpt value) (cfOfValue value))
        | _ => (some .attributeError, w)
      else (none, w)

/-- The `# force resolve` step `owner.__getattribute__(eOpposite.name)`:
materialize the opposite collection slot when absent, as `Core.getattr`
would (the slot store goes through `__setattr__`, which records the name in
`_isset` on a ready instance; the reference bookkeeping of that store is
vacuous for a fresh empty collection).  A scalar opposite feature can reach
this only on tables whose `OppInfo.many` flag is inconsistent, in which case
the default is stored raw. -/
def forceResolveColl (ct : List ClassD) (w : World) (tgt : Nat)
    (oname : String) : Option Err × World :=
  match getObj w tgt with
  | none => (some .attributeError, w)
  | some o =>
      match List.lookup oname o.slots with
      | some _ => (none, w)
      | none =>
          match findEStructuralFeature ct o.classId oname with
          | none => (some .attributeError, w)
          | some f =>
              let s := if f.many then materializedFor f else .val f.defaultValue
              let w1 := rawSetSlot w tgt oname s
              (none, if o.isready then addIsset w1 tgt oname else w1)

/-- The raw structural push of each collection variant (`list.append`, the
ordered-set `add`, the set `add`). -/
def collAppendPush (w : World) (oid : Nat) (fname : String) (v : Value) :
    Option Err × World :=
  match lookupSlot w oid fname with
  | some (.lst l) => (none, rawSetSlot w oid fname (.lst (l ++ [v])))
  | some (.oset s) => (none, rawSetSlot w oid fname (.oset (osAdd s v)))
  | some (.eset l) =>
      (none, rawSetSlot w oid fname (.eset (if l.contains v then l else l ++ [v])))
  | _ => (some .attributeError, w)

/-- `collection.append(new_value, False)` on the opposite side (or
`add(new_value, False)` for sets): the type check followed by the raw
structural push, with opposite maintenance suppressed. -/
def collPushChecked (ct : List ClassD) (w : World) (tgt : Nat)
    (onm : String) (v : Value) : Option Err × World :=
  match ECollection.check ct w tgt onm v with
  | some e => (some e, w)
  | none => collAppendPush w tgt onm v

/-- The raw structural removal `super().remove(value)` of each variant
(`list.remove`, `MutableSet.remove`, `set.remove`). -/
def collRemoveStructural (w : World) (tgt : Nat) (oname : String) (v : Value) :
    Option Err × World :=
  match lookupSlot w tgt oname with
  | some (.lst l) =>
      match pyListRemove l v with
      | .ok l' => (none, rawSetSlot w tgt oname (.lst l'))
      | .error e => (some e, w)
  | some (.oset s) =>
      match osRemove s v with
      | .ok s' => (none, rawSetSlot w tgt oname (.oset s'))
      | .error e => (some e, w)
  | some (.eset l) =>
      if l.contains v then (none, rawSetSlot w tgt oname (.eset (l.erase v)))
      else (some .keyError, w)
  | _ => (some .attributeError, w)

/-- `ECollection._update_opposite(owner, new_value, remove)`: on a reference
with an opposite, update the opposite side of `owner` - append/remove on a
many opposite (with the recursion-breaking `update_opposite=False` flag), or
a raw scalar set otherwise. -/
def ECollection.updateOpposite (ct : List ClassD) (w : World) (oid : Nat)
    (fname : String) (ownerV newV : Value) (remove : Bool) :
    Option Err × World :=
  match collFeature ct w oid fname with
  | none => (some .attributeError, w)
  | some f =>
      if !f.isRef then (none, w)
      else
        match f.eOpposite with
        | none => (none, w)
        | some opp =>
            match ownerV with
            | .vobj tgt =>
                if opp.many && !remove then
                  match forceResolveColl ct w tgt opp.oname with
                  | (some e, w') => (some e, w')
                  | (none, w') => collPushChecked ct w' tgt opp.oname newV
                else if opp.many && remove then
                  collRemoveStructural w tgt opp.oname newV
                else
                  (none, rawSetSlot w tgt opp.oname
                    (.val (if remove then .vnull else newV)))
            | _ => (some .attributeError, w)

/-- The containment and opposite maintenance performed by a mutating append
(`_update_container(value)` then `_update_opposite(value, self._owner)`). -/
def collUpdateStepAppend (ct : List ClassD) (w : World) (oid : Nat)
    (fname : String) (v : Value) : Option Err × World :=
  match ECollection.updateContainer ct w oid fname v .vnull with
  | (some e, w') => (some e, w')
  | (none, w') => ECollection.updateOpposite ct w' oid fname v (.vobj oid) false

/-- `EList.append(value, update_opposite=True)` (and `EAbstractSet.append` /
`add`, which share the same structure): type check, then containment and
opposite maintenance, then the structural push on the live collection. -/
def collAppend (ct : List ClassD) (w : World) (oid : Nat) (fname : String)
    (v : Value) (updOpp : Bool) : Option Err × World :=
  match ECollection.check ct w oid fname v with
  | some e => (some e, w)
  | none =>
      match (if updOpp then collUpdateStepAppend ct w oid fname v
             else (none, w)) with
      | (some e, w') => (some e, w')
      | (none, w') => collAppendPush w' oid fname v

/-- The containment and opposite detachment performed by a mutating remove
(`_update_container(None, previous_value=value)` then
`_update_opposite(value, self._owner, remove=True)`). -/
def collUpdateStepRemove (ct : List ClassD) (w : World) (oid : Nat)
    (fname : String) (v : Value) : Option Err × World :=
  match ECollection.updateContainer ct w oid fname .vnull v with
  | (some e, w') => (some e, w')
  | (none, w') => ECollection.updateOpposite ct w' oid fname v (.vobj oid) true

/-- `ECollection.remove(value, update_opposite=True)`: containment and
opposite detachment, then the structural removal. -/
def collRemove (ct : List ClassD) (w : World) (oid : Nat) (fname : String)
    (v : Value) (updOpp : Bool) : Option Err × World :=
  match (if updOpp then collUpdateStepRemove ct w oid fname v
         else (none, w)) with
  | (some e, w') => (some e, w')
  | (none, w') => collRemoveStructural w' oid fname v

/-! ## The instance layer: `Core.setattr` and `Core.getattr`
(ecore.py lines 49-115) -/

/-- The containment part of `Core.setattr`'s bookkeeping (ecore.py lines
96-101): attach a non-null new element; on clearing, detach the previous
element. -/
def Core.setattrContainmentStep (w : World) (oid : Nat) (name : String)
    (value previous : Value) (feat : FeatD) : Option Err × World :=
  if feat.containment && isObjVal value then
    match value with
    | .vobj v => (none, setContainment w v (some oid) (some (.byName name)))
    | _ => (none, w)
  else if feat.containment && !(pyTruthy w value) && pyTruthy w previous then
    match previous with
    | .vobj p => (none, setContainment w p none none)
    | _ => (some .attributeError, w)
  else (none, w)

/-- The opposite part of `Core.setattr`'s bookkeeping (ecore.py lines
102-115): append/raw-set `self` on the new value's opposite side, or
remove/null `self` on the previous value's opposite side when clearing. -/
def Core.setattrOppositeStep (ct : List ClassD) (w : World) (oid : Nat)
    (_name : String) (value previous : Value) (opp : OppInfo) :
    Option Err × World :=
  if isObjVal value then
    match value with
    | .vobj tgt =>
        if opp.many then
          match forceResolveColl ct w tgt opp.oname with
          | (some e, w4) => (some e, w4)
          | (none, w4) => collAppend ct w4 tgt opp.oname (.vobj oid) true
        else (none, rawSetSlot w tgt opp.oname (.val (.vobj oid)))
    | _ => (none, w)
  else if value = .vnull then
    if pyTruthy w previous && opp.many then
      match previous with
      | .vobj p =>
          match lookupSlot w p opp.oname with
          | some (.val _) => (some .attributeError, w)
          | none => (some .attributeError, w)
          | some _ => collRemove ct w p opp.oname (.vobj oid) true
      | _ => (some .attributeError, w)
    else if pyTruthy w previous then
      match previous with
      | .vobj p => (none, rawSetSlot w p opp.oname (.val .vnull))
      | _ => (some .attributeError, w)
    else (none, w)
  else (none, w)

/-- The reference bookkeeping of `Core.setattr` after the raw store and the
`_isset` record (ecore.py lines 95-115): containment attachment for a
non-null new element, containment detachment when a containment slot is
cleared, and the opposite-side update (append on a many opposite, raw
scalar set otherwise; on clearing, remove or null out `self` on the
previous value's opposite side). -/
def Core.setattrBookkeep (ct : List ClassD) (w : World) (oid : Nat)
    (name : String) (value previous : Value) (feat : FeatD) :
    Option Err × World :=
  if !feat.isRef then (none, w)
  else
    match Core.setattrContainmentStep w oid name value previous feat with
    | (some e, w3) => (some e, w3)
    | (none, w3) =>
        match feat.eOpposite with
        | none => (none, w3)
        | some opp =>
            Core.setattrOppositeStep ct w3 oid name value previous opp

/-- `Core.setattr(self, name, value)`: a non-feature name is stored as a
plain slot; a many feature only accepts an `ECollection` (here: only a
collection reference passes, and the reference is stored as a scalar slot;
no theorem assigns collections); a scalar feature value must satisfy the
`isinstance` rule, else `BadValueError` is raised before any mutation.  The
`from_string` conversion is the identity for every embedded data type (it is
reachable only for string values that passed the type check, hence for
string-hosted types and enums, whose parsers are the identity).  After the
store, on a ready instance, the name is recorded in `_isset` and the
reference bookkeeping of `Core.setattrBookkeep` runs. -/
def Core.setattr (ct : List ClassD) (w : World) (oid : Nat) (name : String)
    (value : Value) : Option Err × World :=
  match getObj w oid with
  | none => (some .attributeError, w)
  | some o =>
      match findEStructuralFeature ct o.classId name with
      | none => (none, rawSetSlot w oid name (.val value))
      | some feat =>
          if feat.many &&
              !(match value with | .vcoll _ _ => true | _ => false) then
            (some .badValue, w)
          else if !feat.many &&
              !(EcoreUtils.isinstance ct w value feat.eType) then
            (some .badValue, w)
          else
            let previous : Value :=
              match List.lookup name o.slots with
              | some (.val v) => v
              | some _ => .vcoll oid name
              | none => .vnull
            let w1 := rawSetSlot w oid name (.val value)
            if !o.isready then (none, w1)
            else
              let w2 := addIsset w1 oid name
              Core.setattrBookkeep ct w2 oid name value previous feat

/-- `Core.getattr(self, name)`: a stored slot is returned directly;
otherwise the name must resolve to a feature (`AttributeError` if not); a
many feature lazily materializes its typed collection and stores it through
`__setattr__`; a scalar feature stores its effective default through
`__setattr__` (with the full type check and bookkeeping of `Core.setattr`)
and returns it. -/
def Core.getattr (ct : List ClassD) (w : World) (oid : Nat) (name : String) :
    Except Err Value × World :=
  match getObj w oid with
  | none => (.error .attributeError, w)
  | some o =>
      match List.lookup name o.slots with
      | some (.val v) => (.ok v, w)
      | some _ => (.ok (.vcoll oid name), w)
      | none =>
          match findEStructuralFeature ct o.classId name with
          | none => (.error .attributeError, w)
          | some f =>
              if f.many then
                let w1 := rawSetSlot w oid name (materializedFor f)
                let w1 := if o.isready then addIsset w1 oid name else w1
                (.ok (.vcoll oid name), w1)
              else
                match Core.setattr ct w oid name f.defaultValue with
                | (some e, w1) => (.error e, w1)
                | (none, w1) => (.ok f.defaultValue, w1)

/-! ## Operations the commands invoke on `self._collection`

`_collection` is the value returned by `eGet` (a collection reference for a
many feature, possibly `None` or a scalar when a command is driven outside
its precondition); the raw `insert`/`pop`/`index` calls bypass the checked
entry points (`EList` inherits them from `list`, `EOrderedSet` uses the
monkey-patched `insert`/`pop`). -/

def collLenV (w : World) : Value → Except Err Nat
  | .vcoll oid fname =>
      match lookupSlot w oid fname with
      | some (.lst l) => .ok l.length
      | some (.oset s) => .ok s.items.length
      | some (.eset l) => .ok l.length
      | _ => .error .typeError
  | .vstr s => .ok s.length
  | _ => .error .typeError

def collContainsV (w : World) (c v : Value) : Except Err Bool :=
  match c with
  | .vcoll oid fname =>
      match lookupSlot w oid fname with
      | some (.lst l) => .ok (l.contains v)
      | some (.oset s) => .ok (osLookup s.map v).isSome
      | some (.eset l) => .ok (l.contains v)
      | _ => .error .typeError
  | _ => .error .typeError

def collGetItemV (w : World) (c : Value) (i : Int) : Except Err Value :=
  match c with
  | .vcoll oid fname =>
      match lookupSlot w oid fname with
      | some (.lst l) => pyListGet l i
      | some (.oset s) => pyListGet s.items i
      | _ => .error .typeError
  | _ => .error .typeError

/-- `self._collection.index(value)`: `list.index` for an `EList`; the
`ordered_set` package answers from its index map (`KeyError` when
absent). -/
def collIndexV (w : World) (c v : Value) : Except Err Int :=
  match c with
  | .vcoll oid fname =>
      match lookupSlot w oid fname with
      | some (.lst l) =>
          match pyListIndex l v with
          | .ok i => .ok (i : Int)
          | .error e => .error e
      | some (.oset s) =>
          match osLookup s.map v with
          | some i => .ok i
          | none => .error .keyError
      | _ => .error .attributeError
  | _ => .error .attributeError

/-- `self._collection.insert(i, v)`: a raw `list.insert` for an `EList`, the
patched `insert` for an `EOrderedSet`, `AttributeError` otherwise. -/
def collRawInsertV (w : World) (c : Value) (i : Int) (v : Value) :
    Option Err × World :=
  match c with
  | .vcoll oid fname =>
      match lookupSlot w oid fname with
      | some (.lst l) => (none, rawSetSlot w oid fname (.lst (pyListInsert l i v)))
      | some (.oset s) => (none, rawSetSlot w oid fname (.oset (osInsert s i v)))
      | _ => (some .attributeError, w)
  | _ => (some .attributeError, w)

/-- `self._collection.pop(i)` with `i` the command's stored index (possibly
`None`): `list.pop` rejects `None` with `TypeError`, the patched ordered-set
`pop` treats it as a tail pop, and `set.pop` takes no arguments at all, so
the call (which always passes one) raises `TypeError` on an `ESet`. -/
def collRawPopV (w : World) (c : Value) (i : Option Int) :
    Except Err Value × World :=
  match c with
  | .vcoll oid fname =>
      match lookupSlot w oid fname with
      | some (.lst l) =>
          match i with
          | none => (.error .typeError, w)
          | some j =>
              match pyListPop l j with
              | .error e => (.error e, w)
              | .ok (v, l') => (.ok v, rawSetSlot w oid fname (.lst l'))
      | some (.oset s) =>
          match osPop s i with
          | .error e => (.error e, w)
          | .ok (v, s') => (.ok v, rawSetSlot w oid fname (.oset s'))
      | some (.eset _) => (.error .typeError, w)
      | _ => (.error .attributeError, w)
  | _ => (.error .attributeError, w)

/-- `self._collection.append(value)`: the checked, invariant-maintaining
append of the typed collection. -/
def collAppendV (ct : List ClassD) (w : World) (c v : Value) :
    Option Err × World :=
  match c with
  | .vcoll oid fname => collAppend ct w oid fname v true
  | _ => (some .attributeError, w)

/-! ## The instance API used by the commands -/

/-- Modelled from the spec: `eGet(feature)` of the instance API is not among
the given sources (commands.py only calls it); per spec section 6 it
resolves the feature through the instance layer, i.e. it is the dynamic
attribute get of the feature's name. -/
def EObject.eGet (ct : List ClassD) (w : World) (oid : Nat) (fname : String) :
    Except Err Value × World :=
  Core.getattr ct w oid fname

/-- Modelled from the spec: `eSet(feature, value)` of the instance API is
not among the given sources (commands.py only calls it); per spec section 6
it is the dynamic attribute set of the feature's name. -/
def EObject.eSet (ct : List ClassD) (w : World) (oid : Nat) (fname : String)
    (v : Value) : Option Err × World :=
  Core.setattr ct w oid fname v

/-! ## The command model (commands.py lines 84-301)

Commands are records of their constructor state; `_executed` is `none`
until `execute()` assigns it (reading `can_undo` before then raises
`AttributeError`).  The feature is kept by name: the source replaces a
string-given feature by the feature object it resolves to, and every later
use goes back through that same name. -/

/-- `AbstractCommand.can_execute` for a string-given feature: the owner's
class must resolve the name to a feature. -/
def AbstractCommand.canExecuteSuper (ct : List ClassD) (w : World) (oid : Nat)
    (fname : String) : Except Err Bool :=
  match getObj w oid with
  | none => .error .attributeError
  | some o => .ok (findEStructuralFeature ct o.classId fname).isSome

structure Set where
  owner : Nat
  feature : String
  value : Value := .vnull
  previous_value : Value := .vnull
  executed : Option Bool := none
  deriving DecidableEq

/-- `Set.can_execute`: the feature resolves and is not many-valued. -/
def Set.can_execute (ct : List ClassD) (c : Set) (w : World) :
    Except Err Bool × Set × World :=
  match AbstractCommand.canExecuteSuper ct w c.owner c.feature with
  | .error e => (.error e, c, w)
  | .ok false => (.ok false, c, w)
  | .ok true =>
      match getObj w c.owner with
      | none => (.error .attributeError, c, w)
      | some o =>
          match findEStructuralFeature ct o.classId c.feature with
          | none => (.ok false, c, w)
          | some f => (.ok (!f.many), c, w)

/-- `Set.do_execute`: record `previous_value = eGet(feature)`, then
`eSet(feature, value)`. -/
def Set.do_execute (ct : List ClassD) (c : Set) (w : World) :
    Option Err × Set × World :=
  match EObject.eGet ct w c.owner c.feature with
  | (.error e, w') => (some e, c, w')
  | (.ok pv, w') =>
      let c := { c with previous_value := pv }
      match EObject.eSet ct w' c.owner c.feature c.value with
      | (e, w'') => (e, c, w'')

/-- `AbstractCommand.execute`: `do_execute`, then `_executed = True`. -/
def Set.execute (ct : List ClassD) (c : Set) (w : World) :
    Option Err × Set × World :=
  match Set.do_execute ct c w with
  | (some e, c', w') => (some e, c', w')
  | (none, c', w') => (none, { c' with executed := some true }, w')

def Set.undo (ct : List ClassD) (c : Set) (w : World) :
    Option Err × Set × World :=
  match EObject.eSet ct w c.owner c.feature c.previous_value with
  | (e, w') => (e, c, w')

def Set.redo (ct : List ClassD) (c : Set) (w : World) :
    Option Err × Set × World :=
  match EObject.eSet ct w c.owner c.feature c.value with
  | (e, w') => (e, c, w')

/-- `AbstractCommand.can_undo`: returns `self._executed`, which does not
exist before the first `execute()`. -/
def Set.can_undo (c : Set) : Except Err Bool :=
  match c.executed with
  | none => .error .attributeError
  | some b => .ok b

structure Add where
  owner : Nat
  feature : String
  value : Value := .vnull
  index : Option Int := none
  collection : Value := .vnull
  executed : Option Bool := none
  deriving DecidableEq

/-- `Add.can_execute`: feature resolution, `value is not None`, assignment
of `self._collection = eGet(feature)`; then, when an index was given and
the previous conjuncts hold, the source evaluates the out-of-scope name `i`
and raises `NameError` (short-circuited away when a previous conjunct is
already false). -/
def Add.can_execute (ct : List ClassD) (c : Add) (w : World) :
    Except Err Bool × Add × World :=
  match AbstractCommand.canExecuteSuper ct w c.owner c.feature with
  | .error e => (.error e, c, w)
  | .ok found =>
      let executable := found && (c.value ≠ .vnull)
      match EObject.eGet ct w c.owner c.feature with
      | (.error e, w') => (.error e, c, w')
      | (.ok coll, w') =>
          let c := { c with collection := coll }
          match c.index with
          | none => (.ok executable, c, w')
          | some _ =>
              if executable then (.error .nameError, c, w')
              else (.ok false, c, w')

/-- `Add.do_execute`: with an index, a raw insert at it; without, record
`index = len(collection)` and do a checked append. -/
def Add.do_execute (ct : List ClassD) (c : Add) (w : World) :
    Option Err × Add × World :=
  match c.index with
  | some i =>
      match collRawInsertV w c.collection i c.value with
      | (e, w') => (e, c, w')
  | none =>
      match collLenV w c.collection with
      | .error e => (some e, c, w)
      | .ok n =>
          let c := { c with index := some (n : Int) }
          match collAppendV ct w c.collection c.value with
          | (e, w') => (e, c, w')

def Add.execute (ct : List ClassD) (c : Add) (w : World) :
    Option Err × Add × World :=
  match Add.do_execute ct c w with
  | (some e, c', w') => (some e, c', w')
  | (none, c', w') => (none, { c' with executed := some true }, w')

/-- `Add.undo`: `self._collection.pop(self.index)`. -/
def Add.undo (c : Add) (w : World) : Option Err × Add × World :=
  match collRawPopV w c.collection c.index with
  | (.error e, w') => (some e, c, w')
  | (.ok _, w') => (none, c, w')

/-- `Add.redo`: `self._collection.insert(self.index, self.value)`. -/
def Add.redo (c : Add) (w : World) : Option Err × Add × World :=
  match c.index with
  | none => (some .typeError, c, w)
  | some i =>
      match collRawInsertV w c.collection i c.value with
      | (e, w') => (e, c, w')

/-- `Add.can_undo`: `super().can_undo and self.value in self._collection`. -/
def Add.can_undo (w : World) (c : Add) : Except Err Bool :=
  match c.executed with
  | none => .error .attributeError
  | some b =>
      if !b then .ok false
      else
        match collContainsV w c.collection c.value with
        | .error e => .error e
        | .ok m => .ok m

structure Remove where
  owner : Nat
  feature : String
  value : Value := .vnull
  index : Option Int := none
  collection : Value := .vnull
  executed : Option Bool := none
  deriving DecidableEq

/-- `Remove.can_execute`: identical shape to `Add.can_execute`, including
the out-of-scope `i` in the index bounds check. -/
def Remove.can_execute (ct : List ClassD) (c : Remove) (w : World) :
    Except Err Bool × Remove × World :=
  match AbstractCommand.canExecuteSuper ct w c.owner c.feature with
  | .error e => (.error e, c, w)
  | .ok found =>
      let executable := found && (c.value ≠ .vnull)
      match EObject.eGet ct w c.owner c.feature with
      | (.error e, w') => (.error e, c, w')
      | (.ok coll, w') =>
          let c := { c with collection := coll }
          match c.index with
          | none => (.ok executable, c, w')
          | some _ =>
              if executable then (.error .nameError, c, w')
              else (.ok false, c, w')

/-- `Remove.do_execute`: resolve a missing index by `collection.index(value)`
and pop at it. -/
def Remove.do_execute (_ct : List ClassD) (c : Remove) (w : World) :
    Option Err × Remove × World :=
  let resolved : Except Err Remove :=
    match c.index with
    | some _ => .ok c
    | none =>
        match collIndexV w c.collection c.value with
        | .error e => .error e
        | .ok i => .ok { c with index := some i }
  match resolved with
  | .error e => (some e, c, w)
  | .ok c' =>
      match collRawPopV w c'.collection c'.index with
      | (.error e, w') => (some e, c', w')
      | (.ok _, w') => (none, c', w')

def Remove.execute (ct : List ClassD) (c : Remove) (w : World) :
    Option Err × Remove × World :=
  match Remove.do_execute ct c w with
  | (some e, c', w') => (some e, c', w')
  | (none, c', w') => (none, { c' with executed := some true }, w')

/-- `Remove.undo`: `self._collection.insert(self.index, self.value)`. -/
def Remove.undo (c : Remove) (w : World) : Option Err × Remove × World :=
  match c.index with
  | none => (some .typeError, c, w)
  | some i =>
      match collRawInsertV w c.collection i c.value with
      | (e, w') => (e, c, w')

/-- `Remove.redo`: `self._collection.pop(self.index)`. -/
def Remove.redo (c : Remove) (w : World) : Option Err × Remove × World :=
  match collRawPopV w c.collection c.index with
  | (.error e, w') => (some e, c, w')
  | (.ok _, w') => (none, c, w')

/-- `Remove.can_undo`: just `super().can_undo`. -/
def Remove.can_undo (c : Remove) : Except Err Bool :=
  match c.executed with
  | none => .error .attributeError
  | some b => .ok b

structure Move where
  owner : Nat
  feature : String
  from_index : Option Int := none
  to_index : Option Int := none
  value : Value := .vnull
  collection : Value := .vnull
  executed : Option Bool := none
  deriving DecidableEq

/-- `Move.__init__`: exactly one of `from_index` and `value` must be
supplied, else `ValueError`. -/
def Move.init (owner : Nat) (feature : String)
    (from_index to_index : Option Int) (value : Value) : Except Err Move :=
  if from_index.isSome == (value ≠ .vnull) then .error .moveArgsError
  else .ok { owner, feature, from_index, to_index, value }

/-- `Move.can_execute`: resolve the collection, evaluate
`to_index >= 0 and to_index >= 0` (the source checks the lower bound twice
and never the upper; a missing `to_index` raises `TypeError`), resolve the
missing one of `(value, from_index)` from the other, then require
`from_index < len`, `from_index >= 0` and membership of the value. -/
def Move.can_execute (ct : List ClassD) (c : Move) (w : World) :
    Except Err Bool × Move × World :=
  match AbstractCommand.canExecuteSuper ct w c.owner c.feature with
  | .error e => (.error e, c, w)
  | .ok can =>
      match EObject.eGet ct w c.owner c.feature with
      | (.error e, w') => (.error e, c, w')
      | (.ok coll, w') =>
          let c := { c with collection := coll }
          match c.to_index with
          | none => (.error .typeError, c, w')
          | some t =>
              let in_bounds := decide (t ≥ 0) && decide (t ≥ 0)
              let resolvedV : Except Err Move :=
                if c.value = .vnull then
                  match c.from_index with
                  | none => .error .typeError
                  | some fi =>
                      match collGetItemV w' coll fi with
                      | .error e => .error e
                      | .ok v => .ok { c with value := v }
                else .ok c
              match resolvedV with
              | .error e => (.error e, c, w')
              | .ok c =>
                  let resolvedF : Except Err Move :=
                    match c.from_index with
                    | some _ => .ok c
                    | none =>
                        match collIndexV w' coll c.value with
                        | .error e => .error e
                        | .ok i => .ok { c with from_index := some i }
                  match resolvedF with
                  | .error e => (.error e, c, w')
                  | .ok c =>
                      match collLenV w' coll with
                      | .error e => (.error e, c, w')
                      | .ok n =>
                          let fi := c.from_index.getD 0
                          let in_bounds := in_bounds && decide (fi < (n : Int))
                            && decide (fi ≥ 0)
                          match collContainsV w' coll c.value with
                          | .error e => (.error e, c, w')
                          | .ok m => (.ok (can && in_bounds && m), c, w')

/-- `Move.do_execute`: `value = collection.pop(from_index)`;
`collection.insert(to_index, value)`. -/
def Move.do_execute (c : Move) (w : World) : Option Err × Move × World :=
  match collRawPopV w c.collection c.from_index with
  | (.error e, w') => (some e, c, w')
  | (.ok v, w') =>
      let c := { c with value := v }
      match c.to_index with
      | none => (some .typeError, c, w')
      | some t =>
          match collRawInsertV w' c.collection t c.value with
          | (e, w'') => (e, c, w'')

def Move.execute (c : Move) (w : World) : Option Err × Move × World :=
  match Move.do_execute c w with
  | (some e, c', w') => (some e, c', w')
  | (none, c', w') => (none, { c' with executed := some true }, w')

/-- `Move.undo`: `value = collection.pop(to_index)`;
`collection.insert(from_index, value)`. -/
def Move.undo (c : Move) (w : World) : Option Err × Move × World :=
  match collRawPopV w c.collection c.to_index with
  | (.error e, w') => (some e, c, w')
  | (.ok v, w') =>
      let c := { c with value := v }
      match c.from_index with
      | none => (some .typeError, c, w')
      | some f =>
          match collRawInsertV w' c.collection f c.value with
          | (e, w'') => (e, c, w'')

/-- `Move.redo`: `self.do_execute()`. -/
def Move.redo (c : Move) (w : World) : Option Err × Move × World :=
  Move.do_execute c w

/-- `Move.can_undo`: `super().can_undo`, then the element currently at
`to_index` must still be the moved value. -/
def Move.can_undo (w : World) (c : Move) : Except Err Bool :=
  match c.executed with
  | none => .error .attributeError
  | some _ =>
      match c.to_index with
      | none => .error .typeError
      | some t =>
          match collGetItemV w c.collection t with
          | .error e => .error e
          | .ok obj => .ok (obj == c.value)

/-! ## Compound (commands.py lines 258-301)

`Compound.__init__` stores the `*commands` argument tuple in `self.items`;
nothing ever rebinds it, so `items` stays a tuple for the life of the
object.  Index access and iteration go through the tuple; the structural
mutators (`insert`, `__setitem__`, `__delitem__`) call list methods a tuple
does not have. -/

structure Compound (κ : Type) where
  items : List κ

/-- `Compound.__len__`. -/
def Compound.length {κ : Type} (c : Compound κ) : Nat :=
  c.items.length

/-- `Compound.__getitem__` (tuple indexing, negative indices allowed). -/
def Compound.getItem {κ : Type} (c : Compound κ) (i : Int) : Except Err κ :=
  match pyNorm c.items.length i with
  | none => .error .indexError
  | some j =>
      match c.items[j]? with
      | some x => .ok x
      | none => .error .indexError

/-- `Compound.__iter__`: iteration yields the stored commands in order. -/
def Compound.toList {κ : Type} (c : Compound κ) : List κ :=
  c.items

/-- `Compound.insert(index, item)` calls `self.items.insert`, but `items`
is a tuple, which has no `insert`: `AttributeError`, always. -/
def Compound.insert {κ : Type} (_c : Compound κ) (_i : Int) (_x : κ) :
    Except Err (Compound κ) :=
  .error .attributeError

/-- `Compound.unwrap`: the sole child if `len == 1`, else the compound
itself. -/
def Compound.unwrap {κ : Type} (c : Compound κ) : κ ⊕ Compound κ :=
  match c.items with
  | [x] => .inl x
  | _ => .inr c

/-- `Compound.can_undo`: `all(command.can_undo for command in self.items)`,
evaluated left to right with Python short-circuiting (a raising child
propagates). -/
def Compound.can_undo {κ : Type} (f : κ → Except Err Bool) :
    List κ → Except Err Bool
  | [] => .ok true
  | x :: t =>
      match f x with
      | .error e => .error e
      | .ok false => .ok false
      | .ok true => Compound.can_undo f t

/-- `Compound.can_execute`: the same conjunction over `can_execute`. -/
def Compound.can_execute {κ : Type} (f : κ → Except Err Bool) :
    List κ → Except Err Bool :=
  Compound.can_undo f

/-! ## The command stack (commands.py lines 304-344)

`CommandStack` is duck-typed over its commands: it only reads
`can_execute`, `can_undo` and calls `execute`, `undo`, `redo`.  `CmdOps`
is that surface; commands are mutable objects, so every operation returns
the updated command, which the stack writes back at the command's position
(Python mutates it in place through the stored reference). -/

structure CmdOps (κ σ : Type) where
  canExecute : κ → σ → Except Err Bool × κ × σ
  execute : κ → σ → Option Err × κ × σ
  can_undo : κ → σ → Except Err Bool
  undo : κ → σ → Option Err × κ × σ
  redo : κ → σ → Option Err × κ × σ

structure CommandStack (κ : Type) where
  stack : List κ := []
  stack_index : Int := -1

/-- The `top` getter: `self.stack[self.stack_index]`, Python indexing (so a
negative cursor reads from the end: on a fully unwound stack with cursor
`-1` this is the most recently pushed command). -/
def CommandStack.top {κ : Type} (s : CommandStack κ) : Except Err κ :=
  match pyNorm s.stack.length s.stack_index with
  | none => .error .indexError
  | some j =>
      match s.stack[j]? with
      | some c => .ok c
      | none => .error .indexError

/-- The `top` setter: `index = stack_index + 1`;
`self.stack[index:index] = [command]` - a slice assignment, i.e. an
insertion that leaves everything to the right of `index` in place - then
`stack_index = index`. -/
def CommandStack.topSet {κ : Type} (s : CommandStack κ) (cmd : κ) :
    CommandStack κ :=
  let index := s.stack_index + 1
  { stack := s.stack.insertIdx (pySliceIdx s.stack.length index) cmd,
    stack_index := index }

/-- `CommandStack.execute(*commands)`: for each command, `can_execute`,
failing with *cannot execute* when false; else `execute()` and the `top`
setter splice. -/
def CommandStack.executeWith {κ σ : Type} (ops : CmdOps κ σ) :
    List κ → CommandStack κ → σ → Option Err × CommandStack κ × σ
  | [], s, st => (none, s, st)
  | c :: rest, s, st =>
      match ops.canExecute c st with
      | (.error e, _, st') => (some e, s, st')
      | (.ok false, _, st') => (some .cannotExecute, s, st')
      | (.ok true, c', st') =>
          match ops.execute c' st' with
          | (some e, _, st'') => (some e, s, st'')
          | (none, c'', st'') =>
              CommandStack.executeWith ops rest (s.topSet c'') st''

/-- `CommandStack.undo`: *empty* on an empty stack; otherwise, when
`top.can_undo`, run `top.undo()` and decrement the cursor (the `del top`
deleter); when `can_undo` is false, do nothing. -/
def CommandStack.undoWith {κ σ : Type} (ops : CmdOps κ σ)
    (s : CommandStack κ) (st : σ) : Option Err × CommandStack κ × σ :=
  if s.stack.isEmpty then (some .emptyStack, s, st)
  else
    match pyNorm s.stack.length s.stack_index with
    | none => (some .indexError, s, st)
    | some j =>
        match s.stack[j]? with
        | none => (some .indexError, s, st)
        | some c =>
            match ops.can_undo c st with
            | .error e => (some e, s, st)
            | .ok false => (none, s, st)
            | .ok true =>
                match ops.undo c st with
                | (some e, c', st') =>
                    (some e, { s with stack := s.stack.set j c' }, st')
                | (none, c', st') =>
                    (none, { stack := s.stack.set j c',
                             stack_index := s.stack_index - 1 }, st')

/-- `CommandStack.redo`: `self.peek_next_top.redo()` - the command at
`stack_index + 1` under Python indexing (`IndexError` when there is none);
the source does not advance the cursor here. -/
def CommandStack.redoWith {κ σ : Type} (ops : CmdOps κ σ)
    (s : CommandStack κ) (st : σ) : Option Err × CommandStack κ × σ :=
  match pyNorm s.stack.length (s.stack_index + 1) with
  | none => (some .indexError, s, st)
  | some j =>
      match s.stack[j]? with
      | none => (some .indexError, s, st)
      | some c =>
          match ops.redo c st with
          | (e, c', st') => (e, { s with stack := s.stack.set j c' }, st')

/-! ## Concrete scenarios used by the claim theorems -/

/-- `owner.<fname>.append(v)` as user code performs it: the attribute get
(materializing the collection if needed) followed by the checked append. -/
def pyAppendAttr (ct : List ClassD) (w : World) (oid : Nat) (fname : String)
    (v : Value) : Option Err × World :=
  match Core.getattr ct w oid fname with
  | (.error e, w') => (some e, w')
  | (.ok c, w') => collAppendV ct w' c v

/-- The containment-transfer scenario of spec S1: class `A` with the many
containment reference `children` (ordered, non-unique, so an `EList`),
class `B` with the scalar reference `parent`, the two being opposites. -/
def s1ClassTable : List ClassD :=
  [ { cname := "A",
      features := [
        { name := "children", eType := .cls 1, isRef := true,
          upperBound := -1, ordered := true, unique := false,
          containment := true,
          eOpposite := some { oname := "parent", many := false } } ] },
    { cname := "B",
      features := [
        { name := "parent", eType := .cls 0, isRef := true, upperBound := 1,
          eOpposite := some { oname := "children", many := true } } ] } ]

/-- Fresh instances: `a1 = 1`, `a2 = 2` of class `A`; `b = 3` of `B`. -/
def s1World : World :=
  { objs := [(1, { classId := 0 }), (2, { classId := 0 }),
             (3, { classId := 1 })] }

/-- The world after `a1.children.append(b)`. -/
def s1AfterFirst : Option Err × World :=
  pyAppendAttr s1ClassTable s1World 1 "children" (.vobj 3)

/-- The world after the subsequent `a2.children.append(b)`. -/
def s1AfterSecond : Option Err × World :=
  pyAppendAttr s1ClassTable s1AfterFirst.2 2 "children" (.vobj 3)

/-- A class with a many-valued ordered non-unique string attribute `items`
(an `EList`), and a scalar string attribute `pname`; the single instance
`1` has `items = [x, y]` and `pname = "first"`. -/
def itemsClassTable : List ClassD :=
  [ { cname := "O",
      features := [
        { name := "items", eType := .dt .hstr, upperBound := -1,
          ordered := true, unique := false },
        { name := "pname", eType := .dt .hstr } ] } ]

def itemsWorld : World :=
  { objs := [(1, { classId := 0,
                   slots := [("items", .lst [.vstr "x", .vstr "y"]),
                             ("pname", .val (.vstr "first"))] })] }

/-- Marker commands driving the generic command stack: the model state is a
log of executed (+k) and undone (-k) command ids; every command is
executable and undoable. -/
def markerOps : CmdOps Nat (List Int) :=
  { canExecute := fun k s => (.ok true, k, s)
    execute := fun k s => (none, k, s ++ [(k : Int)])
    can_undo := fun _ _ => .ok true
    undo := fun k s => (none, k, s ++ [-(k : Int)])
    redo := fun k s => (none, k, s ++ [(k : Int)]) }

/-- The C1 script: `execute(c1)`, `execute(c2)`, `undo()`, `execute(c3)` on
a fresh stack. -/
def c1Script : Option Err × CommandStack Nat × List Int :=
  let r1 := CommandStack.executeWith markerOps [1] {} []
  let r2 := CommandStack.executeWith markerOps [2] r1.2.1 r1.2.2
  let r3 := CommandStack.undoWith markerOps r2.2.1 r2.2.2
  CommandStack.executeWith markerOps [3] r3.2.1 r3.2.2

/-! ## The claims -/

/-- Claim C1.  The claim states that executing a new command after an undo
truncates the redo suffix, leaving `length = cursor + 1` and making an
immediate `redo()` fail out of bounds.  The code's `top` setter
(`stack[index:index] = [command]`) only splices the new command in at
`cursor + 1` and never truncates: after `execute(c1); execute(c2); undo();
execute(c3)` the stack is `[c1, c3, c2]` of length `3` with cursor `1`, and
`redo()` finds the stale `c2` at `cursor + 1` and succeeds, re-running it.
The spec itself flags the missing truncation as a source bug, so this is
recorded as a code bug; this theorem evaluates the code at the failing
input. -/
theorem C1_execute_after_undo_keeps_redo_suffix :
    c1Script.1 = none ∧
    c1Script.2.1.stack = [1, 3, 2] ∧
    c1Script.2.1.stack_index = 1 ∧
    c1Script.2.1.stack.length ≠ (c1Script.2.1.stack_index + 1).toNat ∧
    (CommandStack.redoWith markerOps c1Script.2.1 c1Script.2.2).1 = none ∧
    (CommandStack.redoWith markerOps c1Script.2.1 c1Script.2.2).2.2 =
      [1, 2, -2, 3, 2] := by
  decide

/-- Claim C2.  The claim (and spec S1 / the containment-singularity
invariant) states that `a2.children.append(b)` detaches `b` from `a1`'s
collection.  In the code, `EList.append` updates `b._container`, `b.parent`
and pushes `b` onto `a2.children`, but never removes `b` from
`a1.children`: after the two appends, `b.parent == a2` and
`b._container == a2` hold, yet `a1.children` still contains `b`.  The spec
is clearly the intent (containment singularity), so this is a code bug;
this theorem evaluates the code at the failing input. -/
theorem C2_append_does_not_detach_from_prior_container :
    s1AfterFirst.1 = none ∧
    s1AfterSecond.1 = none ∧
    lookupSlot s1AfterSecond.2 3 "parent" = some (.val (.vobj 2)) ∧
    (getObj s1AfterSecond.2 3).map Obj.container = some (some 2) ∧
    lookupSlot s1AfterSecond.2 2 "children" = some (.lst [.vobj 3]) ∧
    lookupSlot s1AfterSecond.2 1 "children" = some (.lst [.vobj 3]) := by
  decide

/-- Claim C4.  The claim states that `Add.can_execute` with a non-null
index over a resolvable many-valued feature and non-null value returns true
for `0 ≤ index ≤ len` and false outside those bounds.  The source's bounds
check reads the name `i`, which is not in scope, so whenever the earlier
conjuncts hold (they are exactly what makes the short-circuiting `and`
reach the bounds check) it raises `NameError` instead of returning
anything - here with the in-bounds index `0` over `items = [x, y]`.  The
spec itself flags the out-of-scope `i` as a source bug. -/
theorem C4_add_can_execute_with_index_raises_nameerror :
    (Add.can_execute itemsClassTable
        { owner := 1, feature := "items", value := .vstr "z", index := some 0 }
        itemsWorld).1 = .error .nameError := by
  decide

/-- Claim C8.  `Compound` supports index access, iteration and `unwrap`
(sole child when `len == 1`, itself otherwise), but `insert` cannot
succeed: `__init__` stores the `*commands` tuple in `self.items`, and
`Compound.insert` calls `self.items.insert`, which a tuple does not have,
raising `AttributeError`.  The class inherits `MutableSequence` and defines
`insert` precisely to support insertion, so the claim reflects the intent
and the tuple is the slip: a code bug, evaluated here at the failing input
`Compound(c1, c2).insert(0, c3)`. -/
theorem C8_compound_insert_raises :
    (Compound.getItem { items := [10, 20] } 0 = .ok 10) ∧
    (Compound.getItem { items := [10, 20] } 1 = .ok 20) ∧
    (Compound.toList { items := [10, 20] } = [10, 20]) ∧
    (Compound.unwrap { items := [10] } = .inl 10) ∧
    (Compound.unwrap (κ := Nat) { items := [10, 20] } =
      .inr { items := [10, 20] }) ∧
    (Compound.insert { items := [10, 20] } 0 30 = .error .attributeError) := by
  refine ⟨rfl, rfl, rfl, rfl, rfl, rfl⟩

/-- The ordered set `{1}` with a consistent index map. -/
def c6Base : OSet := { items := [.vint 1], map := [(.vint 1, 0)] }

/-- Counterexample for claim C6: `insert(0, 2)` on the ordered set `{1}`
places `2` at position `0` of the item sequence, but the final bump loop
also increments the entry just written for `2`, recording it at index `1` -
the same index as `1` - so the index map is not consistent with the item
sequence. -/
theorem C6_counterexample_insert_map_inconsistent :
    (osInsert c6Base 0 (.vint 2)).items = [.vint 2, .vint 1] ∧
    osLookup (osInsert c6Base 0 (.vint 2)).map (.vint 2) = some 1 ∧
    (osInsert c6Base 0 (.vint 2)).map = [(.vint 1, 1), (.vint 2, 1)] := by
  decide

/-- Counterexample for claim C3: a `Set` whose value violates the feature's
typing rule (an integer written to the string attribute `pname`) passes
`can_execute`, yet `execute()` raises `BadValueError` - feasibility is not
fully established by `can_execute`. -/
theorem C3_counterexample_can_execute_then_failure :
    (Set.can_execute itemsClassTable
        { owner := 1, feature := "pname", value := .vint 1 } itemsWorld).1 =
      .ok true ∧
    (Set.execute itemsClassTable
        { owner := 1, feature := "pname", value := .vint 1 } itemsWorld).1 =
      some .badValue := by
  decide

/-! ## Slot-stability lemmas

How each world-mutating helper affects an arbitrary slot `(oid, name)`;
these drive the typing and round-trip theorems. -/

theorem lookup_assocSet {α β : Type} [BEq α] [LawfulBEq α]
    (l : List (α × β)) (k k' : α) (v : β) :
    List.lookup k' (assocSet l k v) =
      if k' == k then some v else List.lookup k' l := by
  induction l with
  | nil => by_cases h : k' == k <;> simp [assocSet, List.lookup, h]
  | cons hd t ih =>
      obtain ⟨a, b⟩ := hd
      by_cases hak : a == k
      · have hak' : a = k := eq_of_beq hak
        subst hak'
        by_cases h : k' == a <;> simp [assocSet, List.lookup, h]
      · by_cases h : k' == a
        · have h' : k' = a := eq_of_beq h
          subst h'
          have hne : (k' == k) = false := by
            simpa using hak
          simp [assocSet, hak, List.lookup, hne]
        · simp [assocSet, hak, List.lookup, h, ih]

theorem getObj_setObj (w : World) (oid oid' : Nat) (o : Obj) :
    getObj (setObj w oid o) oid' =
      if oid' = oid then some o else getObj w oid' := by
  simp [getObj, setObj, lookup_assocSet]

theorem lookupSlot_rawSetSlot_self (w : World) (oid : Nat) (name : String)
    (s : Slot) (h : (getObj w oid).isSome) :
    lookupSlot (rawSetSlot w oid name s) oid name = some s := by
  unfold rawSetSlot
  cases ho : getObj w oid with
  | none => rw [ho] at h; simp at h
  | some o => simp [lookupSlot, getObj_setObj, lookup_assocSet]

theorem lookupSlot_rawSetSlot_other (w : World) (o' : Nat) (n' : String)
    (s : Slot) (oid : Nat) (name : String) (h : ¬(o' = oid ∧ n' = name)) :
    lookupSlot (rawSetSlot w o' n' s) oid name = lookupSlot w oid name := by
  unfold rawSetSlot
  cases ho : getObj w o' with
  | none => rfl
  | some o =>
      simp only [lookupSlot, getObj_setObj]
      by_cases hoo : oid = o'
      · subst hoo
        have hn : ¬(n' = name) := fun hn => h ⟨rfl, hn⟩
        have hne : (name == n') = false := by
          simp
          exact fun hh => hn hh.symm
        simp [ho, lookup_assocSet, hne]
      · simp [hoo]

theorem lookupSlot_addIsset (w : World) (o' : Nat) (n' : String) (oid : Nat)
    (name : String) :
    lookupSlot (addIsset w o' n') oid name = lookupSlot w oid name := by
  unfold addIsset
  cases ho : getObj w o' with
  | none => rfl
  | some o =>
      simp only [lookupSlot, getObj_setObj]
      by_cases hoo : oid = o'
      · subst hoo; simp [ho]
      · simp [hoo]

theorem lookupSlot_setContainment (w : World) (x : Nat) (c : Option Nat)
    (cf : Option CFVal) (oid : Nat) (name : String) :
    lookupSlot (setContainment w x c cf) oid name = lookupSlot w oid name := by
  unfold setContainment
  cases ho : getObj w x with
  | none => rfl
  | some o =>
      simp only [lookupSlot, getObj_setObj]
      by_cases hoo : oid = x
      · subst hoo; simp [ho]
      · simp [hoo]

theorem lookupSlot_updateContainer (ct : List ClassD) (w : World) (co : Nat)
    (f : String) (value prev : Value) (oid : Nat) (name : String) :
    lookupSlot (ECollection.updateContainer ct w co f value prev).2 oid name =
      lookupSlot w oid name := by
  unfold ECollection.updateContainer
  rcases collFeature ct w co f with _ | ft
  · rfl
  · dsimp only
    split
    · rfl
    · split
      · split <;> simp [lookupSlot_setContainment]
      · split
        · split <;> simp [lookupSlot_setContainment]
        · rfl

theorem lookupSlot_forceResolve (ct : List ClassD) (w : World) (tgt : Nat)
    (onm : String) (oid : Nat) (name : String) (s : Slot)
    (h : lookupSlot w oid name = some s) :
    lookupSlot (forceResolveColl ct w tgt onm).2 oid name = some s := by
  unfold forceResolveColl
  cases ho : getObj w tgt with
  | none => exact h
  | some o =>
      dsimp only
      cases hs : List.lookup onm o.slots with
      | some _ => exact h
      | none =>
          cases hf : findEStructuralFeature ct o.classId onm with
          | none => exact h
          | some f =>
              dsimp only
              have hne : ¬(tgt = oid ∧ onm = name) := by
                rintro ⟨rfl, rfl⟩
                rw [lookupSlot, ho] at h
                simp [hs] at h
              split
              · rw [lookupSlot_addIsset, lookupSlot_rawSetSlot_other _ _ _ _ _ _ hne]
                exact h
              · rw [lookupSlot_rawSetSlot_other _ _ _ _ _ _ hne]
                exact h

theorem lookupSlot_collAppendPush (w : World) (tgt : Nat) (onm : String)
    (x : Value) (oid : Nat) (name : String) (v : Value)
    (h : lookupSlot w oid name = some (.val v)) :
    lookupSlot (collAppendPush w tgt onm x).2 oid name = some (.val v) := by
  unfold collAppendPush
  cases hs : lookupSlot w tgt onm with
  | none => exact h
  | some sl =>
      have hne : sl ≠ .val v → ¬(tgt = oid ∧ onm = name) := by
        rintro hv ⟨rfl, rfl⟩
        rw [h] at hs
        exact hv (Option.some.inj hs).symm
      cases sl with
      | val vv => exact h
      | lst l =>
          rw [lookupSlot_rawSetSlot_other _ _ _ _ _ _ (hne (by simp))]
          exact h
      | oset s' =>
          rw [lookupSlot_rawSetSlot_other _ _ _ _ _ _ (hne (by simp))]
          exact h
      | eset l =>
          rw [lookupSlot_rawSetSlot_other _ _ _ _ _ _ (hne (by simp))]
          exact h

theorem lookupSlot_collPushChecked (ct : List ClassD) (w : World) (tgt : Nat)
    (onm : String) (x : Value) (oid : Nat) (name : String) (v : Value)
    (h : lookupSlot w oid name = some (.val v)) :
    lookupSlot (collPushChecked ct w tgt onm x).2 oid name = some (.val v) := by
  unfold collPushChecked
  rcases ECollection.check ct w tgt onm x with _ | e
  · exact lookupSlot_collAppendPush _ _ _ _ _ _ _ h
  · exact h

theorem lookupSlot_collRemoveStructural (w : World) (tgt : Nat) (onm : String)
    (x : Value) (oid : Nat) (name : String) (v : Value)
    (h : lookupSlot w oid name = some (.val v)) :
    lookupSlot (collRemoveStructural w tgt onm x).2 oid name = some (.val v) := by
  unfold collRemoveStructural
  cases hs : lookupSlot w tgt onm with
  | none => exact h
  | some sl =>
      have hne : sl ≠ .val v → ¬(tgt = oid ∧ onm = name) := by
        rintro hv ⟨rfl, rfl⟩
        rw [h] at hs
        exact hv (Option.some.inj hs).symm
      cases sl with
      | val vv => exact h
      | lst l =>
          dsimp only
          rcases hr : pyListRemove l x with e | l'
          · exact h
          · dsimp only
            rw [lookupSlot_rawSetSlot_other _ _ _ _ _ _ (hne (by simp))]
            exact h
      | oset s' =>
          dsimp only
          rcases hr : osRemove s' x with e | s''
          · exact h
          · dsimp only
            rw [lookupSlot_rawSetSlot_other _ _ _ _ _ _ (hne (by simp))]
            exact h
      | eset l =>
          dsimp only
          split
          · rw [lookupSlot_rawSetSlot_other _ _ _ _ _ _ (hne (by simp))]
            exact h
          · exact h

theorem lookupSlot_updateOpposite (ct : List ClassD) (w : World) (co : Nat)
    (f : String) (ownerV newV : Value) (rm : Bool) (oid : Nat) (name : String)
    (v : Value) (h : lookupSlot w oid name = some (.val v))
    (hv : (if rm then Value.vnull else newV) = v) :
    lookupSlot (ECollection.updateOpposite ct w co f ownerV newV rm).2 oid
      name = some (.val v) := by
  unfold ECollection.updateOpposite
  rcases collFeature ct w co f with _ | ft
  · exact h
  · dsimp only
    split
    · exact h
    · rcases ft.eOpposite with _ | opp
      · exact h
      · dsimp only
        cases ownerV with
        | vobj tgt =>
            dsimp only
            split
            · rcases hfr : forceResolveColl ct w tgt opp.oname with ⟨e?, w'⟩
              have h' := lookupSlot_forceResolve ct w tgt opp.oname oid name _ h
              rw [hfr] at h'
              rcases e? with _ | e
              · exact lookupSlot_collPushChecked _ _ _ _ _ _ _ _ h'
              · exact h'
            · split
              · exact lookupSlot_collRemoveStructural _ _ _ _ _ _ _ h
              · by_cases hcase : tgt = oid ∧ opp.oname = name
                · obtain ⟨rfl, rfl⟩ := hcase
                  rw [hv]
                  refine lookupSlot_rawSetSlot_self _ _ _ _ ?_
                  rw [lookupSlot] at h
                  cases ho : getObj w tgt with
                  | none => rw [ho] at h; simp at h
                  | some o => simp
                · rw [lookupSlot_rawSetSlot_other _ _ _ _ _ _ hcase]
                  exact h
        | vnull => exact h
        | vint n => exact h
        | vstr s => exact h
        | vbool b => exact h
        | vlit l => exact h
        | vcoll a b => exact h

theorem getObj_isSome_of_lookupSlot {w : World} {oid : Nat} {name : String}
    {s : Slot} (h : lookupSlot w oid name = some s) :
    (getObj w oid).isSome := by
  rw [lookupSlot] at h
  cases ho : getObj w oid with
  | none => rw [ho] at h; simp at h
  | some o => simp

theorem lookupSlot_collUpdateStepAppend_val (ct : List ClassD) (w : World)
    (tgt : Nat) (fname : String) (x : Value) (oid : Nat) (name : String)
    (h : lookupSlot w oid name = some (.val (.vobj tgt))) :
    lookupSlot (collUpdateStepAppend ct w tgt fname x).2 oid name =
      some (.val (.vobj tgt)) := by
  unfold collUpdateStepAppend
  rcases hc : ECollection.updateContainer ct w tgt fname x .vnull with ⟨e1, w1⟩
  have h1 : lookupSlot w1 oid name = some (.val (.vobj tgt)) := by
    have heq := lookupSlot_updateContainer ct w tgt fname x .vnull oid name
    rw [hc] at heq
    rw [heq]
    exact h
  rcases e1 with _ | e
  · exact lookupSlot_updateOpposite ct w1 tgt fname x (.vobj tgt) false oid
      name _ h1 (by simp)
  · exact h1

/-- A full `append` onto the collection `(tgt, onm)` preserves a scalar slot
holding `vobj tgt`: every write it can direct at that slot (the scalar
opposite write, which stores the collection's owner) stores that same
value. -/
theorem lookupSlot_collAppend_val (ct : List ClassD) (w : World) (tgt : Nat)
    (onm : String) (x : Value) (oid : Nat) (name : String)
    (h : lookupSlot w oid name = some (.val (.vobj tgt))) :
    lookupSlot (collAppend ct w tgt onm x true).2 oid name =
      some (.val (.vobj tgt)) := by
  unfold collAppend
  rcases ECollection.check ct w tgt onm x with _ | e
  · rw [if_pos rfl]
    rcases hu : collUpdateStepAppend ct w tgt onm x with ⟨e1, w1⟩
    have h1 : lookupSlot w1 oid name = some (.val (.vobj tgt)) := by
      have heq := lookupSlot_collUpdateStepAppend_val ct w tgt onm x oid name h
      rw [hu] at heq
      exact heq
    rcases e1 with _ | e
    · exact lookupSlot_collAppendPush _ _ _ _ _ _ _ h1
    · exact h1
  · exact h

theorem lookupSlot_collUpdateStepRemove_vnull (ct : List ClassD) (w : World)
    (p : Nat) (fname : String) (x : Value) (oid : Nat) (name : String)
    (h : lookupSlot w oid name = some (.val .vnull)) :
    lookupSlot (collUpdateStepRemove ct w p fname x).2 oid name =
      some (.val .vnull) := by
  unfold collUpdateStepRemove
  rcases hc : ECollection.updateContainer ct w p fname .vnull x with ⟨e1, w1⟩
  have h1 : lookupSlot w1 oid name = some (.val .vnull) := by
    have heq := lookupSlot_updateContainer ct w p fname .vnull x oid name
    rw [hc] at heq
    rw [heq]
    exact h
  rcases e1 with _ | e
  · exact lookupSlot_updateOpposite ct w1 p fname x (.vobj p) true oid name _
      h1 (by simp)
  · exact h1

/-- A full `remove` from the collection `(p, onm)` preserves a scalar slot
holding `vnull`: the only write it can direct at that slot (the scalar
opposite clear) stores `None`. -/
theorem lookupSlot_collRemove_vnull (ct : List ClassD) (w : World) (p : Nat)
    (onm : String) (x : Value) (oid : Nat) (name : String)
    (h : lookupSlot w oid name = some (.val .vnull)) :
    lookupSlot (collRemove ct w p onm x true).2 oid name =
      some (.val .vnull) := by
  unfold collRemove
  rw [if_pos rfl]
  rcases hu : collUpdateStepRemove ct w p onm x with ⟨e1, w1⟩
  have h1 : lookupSlot w1 oid name = some (.val .vnull) := by
    have heq := lookupSlot_collUpdateStepRemove_vnull ct w p onm x oid name h
    rw [hu] at heq
    exact heq
  rcases e1 with _ | e
  · exact lookupSlot_collRemoveStructural _ _ _ _ _ _ _ h1
  · exact h1

theorem lookupSlot_setattrContainmentStep (w : World) (oid : Nat)
    (name : String) (value previous : Value) (feat : FeatD) (oid' : Nat)
    (name' : String) :
    lookupSlot (Core.setattrContainmentStep w oid name value previous feat).2
      oid' name' = lookupSlot w oid' name' := by
  unfold Core.setattrContainmentStep
  split
  · split <;> simp [lookupSlot_setContainment]
  · split
    · split <;> simp [lookupSlot_setContainment]
    · rfl

theorem lookupSlot_setattrOppositeStep (ct : List ClassD) (w : World)
    (oid : Nat) (name : String) (value previous : Value) (opp : OppInfo)
    (h : lookupSlot w oid name = some (.val value)) :
    lookupSlot (Core.setattrOppositeStep ct w oid name value previous opp).2
      oid name = some (.val value) := by
  unfold Core.setattrOppositeStep
  split
  · rename_i hobjv
    cases value with
    | vobj tgt =>
        dsimp only
        split
        · rcases hfr : forceResolveColl ct w tgt opp.oname with ⟨e4, w4⟩
          have h4 : lookupSlot w4 oid name = some (.val (.vobj tgt)) := by
            have heq := lookupSlot_forceResolve ct w tgt opp.oname oid name _ h
            rw [hfr] at heq
            exact heq
          rcases e4 with _ | e
          · exact lookupSlot_collAppend_val _ _ _ _ _ _ _ h4
          · exact h4
        · by_cases hcase : tgt = oid ∧ opp.oname = name
          · obtain ⟨rfl, rfl⟩ := hcase
            exact lookupSlot_rawSetSlot_self _ _ _ _
              (getObj_isSome_of_lookupSlot h)
          · rw [lookupSlot_rawSetSlot_other _ _ _ _ _ _ hcase]
            exact h
    | vnull => simp [isObjVal] at hobjv
    | vint n => simp [isObjVal] at hobjv
    | vstr s => simp [isObjVal] at hobjv
    | vbool b => simp [isObjVal] at hobjv
    | vlit l => simp [isObjVal] at hobjv
    | vcoll a b => simp [isObjVal] at hobjv
  · split
    · rename_i hnull
      subst hnull
      split
      · cases previous with
        | vobj p =>
            dsimp only
            cases hs : lookupSlot w p opp.oname with
            | none => exact h
            | some sl =>
                cases sl with
                | val vv => exact h
                | lst l => exact lookupSlot_collRemove_vnull _ _ _ _ _ _ _ h
                | oset s1 => exact lookupSlot_collRemove_vnull _ _ _ _ _ _ _ h
                | eset l => exact lookupSlot_collRemove_vnull _ _ _ _ _ _ _ h
        | vnull => exact h
        | vint n => exact h
        | vstr s => exact h
        | vbool b => exact h
        | vlit l => exact h
        | vcoll a b => exact h
      · split
        · cases previous with
          | vobj p =>
              dsimp only
              by_cases hcase : p = oid ∧ opp.oname = name
              · obtain ⟨rfl, rfl⟩ := hcase
                exact lookupSlot_rawSetSlot_self _ _ _ _
                  (getObj_isSome_of_lookupSlot h)
              · rw [lookupSlot_rawSetSlot_other _ _ _ _ _ _ hcase]
                exact h
          | vnull => exact h
          | vint n => exact h
          | vstr s => exact h
          | vbool b => exact h
          | vlit l => exact h
          | vcoll a b => exact h
        · exact h
    · exact h

/-- The reference bookkeeping of `Core.setattr` never changes the freshly
written slot to a different value: every write it can direct at the slot
`(oid, name)` (the scalar opposite-write collisions) stores the value just
written there. -/
theorem lookupSlot_setattrBookkeep (ct : List ClassD) (w : World) (oid : Nat)
    (name : String) (value previous : Value) (feat : FeatD)
    (h : lookupSlot w oid name = some (.val value)) :
    lookupSlot (Core.setattrBookkeep ct w oid name value previous feat).2 oid
      name = some (.val value) := by
  unfold Core.setattrBookkeep
  split
  · exact h
  · rcases hcs : Core.setattrContainmentStep w oid name value previous feat
      with ⟨e1, w3⟩
    have h3 : lookupSlot w3 oid name = some (.val value) := by
      have heq := lookupSlot_setattrContainmentStep w oid name value previous
        feat oid name
      rw [hcs] at heq
      rw [heq]
      exact h
    rcases e1 with _ | e
    · cases feat.eOpposite with
      | none => exact h3
      | some opp => exact lookupSlot_setattrOppositeStep _ _ _ _ _ _ _ h3
    · exact h3

/-- Claim C7.  For every write of a value `v` to a scalar feature with type
`T` on an instance: either `isinstance(v, T)` holds per the typing rule
(null satisfies any type; enum membership; host-type match; eClass identity
or supertype membership - all inside `EcoreUtils.isinstance`) and the value
is stored in the slot, or the write raises *bad value* with the world - in
particular the slot - exactly unchanged, the check preceding any mutation.
(The stored value equals `v` because the `from_string` conversion is the
identity on every value that passes the type check; the subsequent
reference bookkeeping never overwrites the slot with a different value.) -/
theorem C7_scalar_feature_write (ct : List ClassD) (w : World) (oid : Nat)
    (name : String) (v : Value) (o : Obj) (ft : FeatD)
    (hobj : getObj w oid = some o)
    (hfeat : findEStructuralFeature ct o.classId name = some ft)
    (hmany : ft.many = false) :
    (EcoreUtils.isinstance ct w v ft.eType = false →
      Core.setattr ct w oid name v = (some .badValue, w)) ∧
    (EcoreUtils.isinstance ct w v ft.eType = true →
      lookupSlot (Core.setattr ct w oid name v).2 oid name =
        some (.val v)) := by
  constructor
  · intro hinst
    unfold Core.setattr
    rw [hobj]
    dsimp only
    rw [hfeat]
    dsimp only
    simp [hmany, hinst]
  · intro hinst
    unfold Core.setattr
    rw [hobj]
    dsimp only
    rw [hfeat]
    dsimp only
    simp only [hmany, hinst, Bool.false_and, Bool.not_true, Bool.and_false,
      Bool.false_eq_true, if_false, Bool.not_false, Bool.true_and]
    have h1 : lookupSlot (rawSetSlot w oid name (.val v)) oid name =
        some (.val v) :=
      lookupSlot_rawSetSlot_self _ _ _ _ (by rw [hobj]; rfl)
    split
    · exact h1
    · refine lookupSlot_setattrBookkeep _ _ _ _ _ _ _ ?_
      rw [lookupSlot_addIsset]
      exact h1

/-- Witness for claim C7: on the instance with string attribute `pname`,
writing the integer `1` fails the typing rule and raises *bad value* with
the world unchanged, while writing the string `snd` passes and is stored. -/
theorem C7_witness :
    (EcoreUtils.isinstance itemsClassTable itemsWorld (.vint 1)
        (.dt .hstr) = false ∧
      Core.setattr itemsClassTable itemsWorld 1 "pname" (.vint 1) =
        (some .badValue, itemsWorld)) ∧
    (EcoreUtils.isinstance itemsClassTable itemsWorld (.vstr "snd")
        (.dt .hstr) = true ∧
      lookupSlot (Core.setattr itemsClassTable itemsWorld 1 "pname"
          (.vstr "snd")).2 1 "pname" = some (.val (.vstr "snd"))) := by
  refine ⟨⟨by decide, ?_⟩, by decide, ?_⟩
  · exact (C7_scalar_feature_write itemsClassTable itemsWorld 1 "pname"
      (.vint 1) _ _ rfl rfl (by decide)).1 (by decide)
  · exact (C7_scalar_feature_write itemsClassTable itemsWorld 1 "pname"
      (.vstr "snd") _ _ rfl rfl (by decide)).2 (by decide)

/-- Normalizing the Python index `-1` on a non-empty list selects the last
position. -/
theorem pyNorm_neg_one (n : Nat) (h : 0 < n) : pyNorm n (-1) = some (n - 1) := by
  unfold pyNorm
  rw [if_pos (by norm_num)]
  have h1 : (0 : Int) ≤ -1 + n := by omega
  have h2 : (-1 : Int) + n < n := by omega
  rw [if_pos ⟨h1, h2⟩]
  congr 1
  omega

/-- Claim C9.  `undo()` on a non-empty, fully unwound stack
(`stack_index = -1`) does not raise the empty-stack error: the `top`
property evaluates `stack[-1]` under Python negative indexing, selecting
the most recently pushed command, whose `undo()` runs again; the cursor is
then decremented to `-2`. -/
theorem C9_unwound_undo_reruns_last (κ σ : Type) (ops : CmdOps κ σ)
    (s : CommandStack κ) (st : σ) (c c' : κ) (st' : σ)
    (hlast : s.stack.getLast? = some c)
    (hidx : s.stack_index = -1)
    (hcu : ops.can_undo c st = .ok true)
    (hundo : ops.undo c st = (none, c', st')) :
    CommandStack.undoWith ops s st =
      (none, { stack := s.stack.set (s.stack.length - 1) c',
               stack_index := -2 }, st') := by
  have hne : s.stack ≠ [] := by
    intro hnil
    rw [hnil] at hlast
    simp at hlast
  have hpos : 0 < s.stack.length := List.length_pos.mpr hne
  have hget : s.stack[s.stack.length - 1]? = some c := by
    rw [← List.getLast?_eq_getElem?]
    exact hlast
  unfold CommandStack.undoWith
  rw [if_neg (by simp [List.isEmpty_iff, hne])]
  rw [hidx, pyNorm_neg_one _ hpos]
  dsimp only
  rw [hget]
  dsimp only
  rw [hcu]
  dsimp only
  rw [hundo]
  norm_num

/-- Witness for claim C9: a stack holding the single already-undone marker
command `5` with cursor `-1`; `undo()` succeeds, runs `5`'s undo again
(logging `-5`) and leaves the cursor at `-2`. -/
theorem C9_witness :
    CommandStack.undoWith markerOps
        { stack := [5], stack_index := -1 } [] =
      (none, { stack := [5], stack_index := -2 }, [(-5 : Int)]) :=
  C9_unwound_undo_reruns_last Nat (List Int) markerOps
    { stack := [5], stack_index := -1 } [] 5 5 [(-5 : Int)] rfl rfl rfl rfl

/-- Claim C10.  Reading `can_undo` on a `Set`, `Add`, `Remove` or `Move`
command that has never been executed raises `AttributeError` instead of
returning false: `_executed` is assigned only inside `execute()` and is
absent after construction.  Consequently `Compound.can_undo` on a compound
of never-executed children raises as well: the `all(...)` conjunction
evaluates the first child's `can_undo`, which raises. -/
theorem C10_can_undo_unexecuted_raises :
    (∀ c : Set, c.executed = none →
      Set.can_undo c = .error .attributeError) ∧
    (∀ (w : World) (c : Add), c.executed = none →
      Add.can_undo w c = .error .attributeError) ∧
    (∀ c : Remove, c.executed = none →
      Remove.can_undo c = .error .attributeError) ∧
    (∀ (w : World) (c : Move), c.executed = none →
      Move.can_undo w c = .error .attributeError) ∧
    (∀ (κ : Type) (f : κ → Except Err Bool) (x : κ) (t : List κ),
      f x = .error .attributeError →
      Compound.can_undo f (x :: t) = .error .attributeError) := by
  refine ⟨?_, ?_, ?_, ?_, ?_⟩
  · intro c h; simp [Set.can_undo, h]
  · intro w c h; simp [Add.can_undo, h]
  · intro c h; simp [Remove.can_undo, h]
  · intro w c h; simp [Move.can_undo, h]
  · intro κ f x t h; simp [Compound.can_undo, h]

/-- Witness for claim C10: freshly constructed commands over the `items`
instance, and a compound holding one of them, all raise on `can_undo`. -/
theorem C10_witness :
    Set.can_undo { owner := 1, feature := "pname" } =
      .error .attributeError ∧
    Add.can_undo itemsWorld { owner := 1, feature := "items" } =
      .error .attributeError ∧
    Remove.can_undo { owner := 1, feature := "items" } =
      .error .attributeError ∧
    Move.can_undo itemsWorld { owner := 1, feature := "items" } =
      .error .attributeError ∧
    Compound.can_undo Set.can_undo [{ owner := 1, feature := "pname" }] =
      .error .attributeError :=
  ⟨C10_can_undo_unexecuted_raises.1 _ rfl,
   C10_can_undo_unexecuted_raises.2.1 _ _ rfl,
   C10_can_undo_unexecuted_raises.2.2.1 _ rfl,
   C10_can_undo_unexecuted_raises.2.2.2.1 _ _ rfl,
   C10_can_undo_unexecuted_raises.2.2.2.2 _ _ _ _
     (C10_can_undo_unexecuted_raises.1 _ rfl)⟩

/-! ## Lemmas about the ordered-set index dictionary -/

theorem lookup_map_bumpUp (m : List (Value × Int)) (k : Value) (i : Int) :
    List.lookup k (m.map fun p => (p.1, if p.2 ≥ i then p.2 + 1 else p.2)) =
      (List.lookup k m).map fun v => if v ≥ i then v + 1 else v := by
  induction m with
  | nil => rfl
  | cons hd t ih =>
      obtain ⟨a, b⟩ := hd
      by_cases h : k == a <;> simp [List.lookup, h, ih]

theorem lookup_map_bumpDown (m : List (Value × Int)) (k : Value) (i : Int) :
    List.lookup k (m.map fun p => (p.1, if p.2 ≥ i then p.2 - 1 else p.2)) =
      (List.lookup k m).map fun v => if v ≥ i then v - 1 else v := by
  induction m with
  | nil => rfl
  | cons hd t ih =>
      obtain ⟨a, b⟩ := hd
      by_cases h : k == a <;> simp [List.lookup, h, ih]

theorem lookup_none_of_not_mem_keys (m : List (Value × Int)) (x : Value)
    (h : x ∉ m.map Prod.fst) : List.lookup x m = none := by
  induction m with
  | nil => rfl
  | cons hd t ih =>
      obtain ⟨a, b⟩ := hd
      simp only [List.map_cons, List.mem_cons, not_or] at h
      have hxa : (x == a) = false := by simpa using h.1
      simp [List.lookup, hxa, ih h.2]

theorem lookup_osErase_other (m : List (Value × Int)) (x y : Value)
    (hxy : y ≠ x) : List.lookup y (osErase m x) = List.lookup y m := by
  induction m with
  | nil => rfl
  | cons hd t ih =>
      obtain ⟨a, b⟩ := hd
      by_cases hax : a == x
      · have ha : a = x := eq_of_beq hax
        subst ha
        have hya : (y == a) = false := by simpa using hxy
        simp [osErase, List.eraseP_cons, hax, List.lookup, hya]
      · have hax' : (a == x) = false := by simpa using hax
        simp only [osErase, List.eraseP_cons, hax', Bool.false_eq_true,
          if_false, List.lookup]
        by_cases hy : y == a
        · simp [hy]
        · simp only [hy, Bool.false_eq_true]
          simpa [osErase] using ih

theorem lookup_osErase_self (m : List (Value × Int)) (x : Value)
    (hnodup : (m.map Prod.fst).Nodup) :
    List.lookup x (osErase m x) = none := by
  induction m with
  | nil => rfl
  | cons hd t ih =>
      obtain ⟨a, b⟩ := hd
      simp only [List.map_cons, List.nodup_cons] at hnodup
      obtain ⟨hna, hnd⟩ := hnodup
      by_cases hax : a == x
      · have ha : a = x := eq_of_beq hax
        subst ha
        simp only [osErase, List.eraseP_cons, hax, if_pos]
        exact lookup_none_of_not_mem_keys t a hna
      · have hxa : (x == a) = false := by
          simp only [beq_eq_false_iff_ne, ne_eq]
          intro hh
          subst hh
          simp at hax
        have hax' : (a == x) = false := by simpa using hax
        simp only [osErase, List.eraseP_cons, hax', Bool.false_eq_true,
          if_false, List.lookup, hxa]
        simpa [osErase] using ih hnd

/-! ## Python list index arithmetic -/

theorem pyNorm_natCast (n i : Nat) (h : i < n) : pyNorm n (i : Int) = some i := by
  unfold pyNorm
  rw [if_neg (by omega)]
  rw [if_pos (by exact_mod_cast h)]
  simp

theorem pyListPop_natCast (l : List Value) (i : Nat) (h : i < l.length) :
    pyListPop l (i : Int) = .ok (l[i], l.eraseIdx i) := by
  unfold pyListPop
  rw [pyNorm_natCast _ _ h]
  dsimp only
  rw [(List.getElem?_eq_some_getElem_iff l i h).mpr trivial]

theorem eraseIdx_concat (l : List Value) (x : Value) :
    (l ++ [x]).eraseIdx l.length = l := by
  have h : l.length + 1 = (l ++ [x]).length := by simp
  rw [← List.dropLast_eq_eraseIdx h]
  exact List.dropLast_concat

theorem pyListPop_concat_neg_one (l : List Value) (x : Value) :
    pyListPop (l ++ [x]) (-1) = .ok (x, l) := by
  unfold pyListPop
  rw [pyNorm_neg_one _ (by simp)]
  have hlen : (l ++ [x]).length - 1 = l.length := by simp
  rw [hlen]
  dsimp only
  rw [List.getElem?_concat_length]
  dsimp only
  rw [eraseIdx_concat]

theorem pySliceIdx_natCast (n i : Nat) (h : i ≤ n) : pySliceIdx n (i : Int) = i := by
  unfold pySliceIdx
  rw [if_neg (by omega)]
  omega

theorem pyListInsert_natCast (l : List Value) (i : Nat) (x : Value)
    (h : i ≤ l.length) : pyListInsert l (i : Int) x = l.insertIdx i x := by
  unfold pyListInsert
  rw [pySliceIdx_natCast _ _ h]

/-- Amended claim C6.  On an OrderedSet, `insert(i, x)` is a no-op when `x`
is already present; otherwise it places `x` at position `i` of the item
sequence, shifting subsequent elements up by one, and shifts every other
element's map index `>= i` up by one - but the final bump loop also
increments the entry just written for `x`, recording it at `i + 1` instead
of `i`, so the index map is *not* left consistent with the item sequence
(the inconsistency is exactly this off-by-one on the inserted element).
`pop(i)` removes the element at position `i` and decrements every remaining
map index `>= i`; `pop()` with no index removes the tail; popping from an
empty ordered set fails with the *empty* error. -/
theorem C6_orderedset_insert_pop :
    (∀ (s : OSet) (i : Int) (x : Value),
        (osLookup s.map x).isSome → osInsert s i x = s) ∧
    (∀ (s : OSet) (i : Nat) (x : Value),
        osLookup s.map x = none → i ≤ s.items.length →
        (osInsert s (i : Int) x).items = s.items.insertIdx i x ∧
        osLookup (osInsert s (i : Int) x).map x = some ((i : Int) + 1) ∧
        ∀ (y : Value) (v : Int), y ≠ x → osLookup s.map y = some v →
          osLookup (osInsert s (i : Int) x).map y =
            some (if v ≥ (i : Int) then v + 1 else v)) ∧
    (∀ (s : OSet) (i : Nat) (x : Value) (hi : i < s.items.length),
        s.items.get ⟨i, hi⟩ = x → (s.map.map Prod.fst).Nodup →
        ∃ s', osPop s (some (i : Int)) = .ok (x, s') ∧
          s'.items = s.items.eraseIdx i ∧
          osLookup s'.map x = none ∧
          ∀ (y : Value) (v : Int), y ≠ x → osLookup s.map y = some v →
            osLookup s'.map y = some (if v ≥ (i : Int) then v - 1 else v)) ∧
    (∀ (s : OSet) (l : List Value) (x : Value), s.items = l ++ [x] →
        ∃ s', osPop s none = .ok (x, s') ∧ s'.items = l) ∧
    (∀ (s : OSet) (i : Option Int), s.items = [] →
        osPop s i = .error .keyEmpty) := by
  refine ⟨?_, ?_, ?_, ?_, ?_⟩
  · intro s i x h
    unfold osInsert
    rw [if_pos h]
  · intro s i x hx hlen
    unfold osInsert
    rw [if_neg (by simp [hx])]
    refine ⟨?_, ?_, ?_⟩
    · exact pyListInsert_natCast _ _ _ hlen
    · show List.lookup x ((assocSet s.map x (i : Int)).map
          fun p => (p.1, if p.2 ≥ (i : Int) then p.2 + 1 else p.2)) = _
      rw [lookup_map_bumpUp, lookup_assocSet]
      simp
    · intro y v hy hv
      show List.lookup y ((assocSet s.map x (i : Int)).map
          fun p => (p.1, if p.2 ≥ (i : Int) then p.2 + 1 else p.2)) = _
      rw [lookup_map_bumpUp, lookup_assocSet]
      rw [if_neg (by simpa using hy)]
      rw [osLookup] at hv
      rw [hv]
      rfl
  · intro s i x hi hget hnd
    unfold osPop
    rw [if_neg (List.ne_nil_of_length_pos (Nat.lt_of_le_of_lt (Nat.zero_le i) hi))]
    dsimp only
    rw [pyListPop_natCast _ _ hi]
    dsimp only
    rw [List.get_eq_getElem] at hget
    rw [hget]
    refine ⟨_, rfl, rfl, ?_, ?_⟩
    · show List.lookup x ((osErase s.map x).map
          fun p => (p.1, if p.2 ≥ (i : Int) then p.2 - 1 else p.2)) = none
      rw [lookup_map_bumpDown, lookup_osErase_self _ _ hnd]
      rfl
    · intro y v hy hv
      show List.lookup y ((osErase s.map x).map
          fun p => (p.1, if p.2 ≥ (i : Int) then p.2 - 1 else p.2)) = _
      rw [lookup_map_bumpDown, lookup_osErase_other _ _ _ hy]
      rw [osLookup] at hv
      rw [hv]
      rfl
  · intro s l x hitems
    unfold osPop
    rw [if_neg (by simp [hitems])]
    dsimp only
    have h1 : pyListPop s.items (-1) = .ok (x, l) := by
      rw [hitems]
      exact pyListPop_concat_neg_one l x
    rw [h1]
    exact ⟨_, rfl, rfl⟩
  · intro s i h
    unfold osPop
    rw [if_pos h]

/-- The two-element ordered set `{1, 2}` with a consistent index map. -/
def c6PopBase : OSet :=
  { items := [.vint 1, .vint 2], map := [(.vint 1, 0), (.vint 2, 1)] }

/-- Witness for amended claim C6, at concrete ordered sets: the no-op
insert, the off-by-one map entry after a fresh insert, the indexed pop
shifting the remaining entry down, the tail pop, and the empty pop. -/
theorem C6_amended_witness :
    osInsert c6Base 0 (.vint 1) = c6Base ∧
    ((osInsert c6Base ((0 : Nat) : Int) (.vint 2)).items =
        [.vint 2, .vint 1] ∧
      osLookup (osInsert c6Base ((0 : Nat) : Int) (.vint 2)).map (.vint 2) =
        some 1 ∧
      osLookup (osInsert c6Base ((0 : Nat) : Int) (.vint 2)).map (.vint 1) =
        some 1) ∧
    (∃ s', osPop c6PopBase (some ((0 : Nat) : Int)) = .ok (.vint 1, s') ∧
      s'.items = [.vint 2] ∧
      osLookup s'.map (.vint 1) = none ∧
      osLookup s'.map (.vint 2) = some 0) ∧
    (∃ s', osPop c6PopBase none = .ok (.vint 2, s') ∧ s'.items = [.vint 1]) ∧
    osPop { items := [], map := [] } (some 3) = .error .keyEmpty := by
  refine ⟨?_, ?_, ?_, ?_, ?_⟩
  · exact C6_orderedset_insert_pop.1 c6Base 0 (.vint 1) (by decide)
  · obtain ⟨h1, h2, h3⟩ := C6_orderedset_insert_pop.2.1 c6Base 0 (.vint 2)
      (by decide) (by decide)
    exact ⟨h1, h2, h3 (.vint 1) 0 (by decide) (by decide)⟩
  · obtain ⟨s', h1, h2, h3, h4⟩ := C6_orderedset_insert_pop.2.2.1
      c6PopBase 0 (.vint 1) (by decide) (by decide) (by decide)
    refine ⟨s', h1, h2, h3, ?_⟩
    have := h4 (.vint 2) 1 (by decide) (by decide)
    simpa using this
  · exact C6_orderedset_insert_pop.2.2.2.1 c6PopBase [.vint 1] (.vint 2) rfl
  · exact C6_orderedset_insert_pop.2.2.2.2 _ (some 3) rfl

/-! ## Computation lemmas for the round-trip theorems -/

theorem getObj_rawSetSlot_self (w : World) (oid : Nat) (n : String) (s : Slot)
    (o : Obj) (h : getObj w oid = some o) :
    getObj (rawSetSlot w oid n s) oid =
      some { o with slots := assocSet o.slots n s } := by
  unfold rawSetSlot
  rw [h]
  simp [getObj_setObj]

theorem getObj_addIsset_self (w : World) (oid : Nat) (n : String) (o : Obj)
    (h : getObj w oid = some o) :
    getObj (addIsset w oid n) oid = some { o with isset := o.isset ++ [n] } := by
  unfold addIsset
  rw [h]
  simp [getObj_setObj]

/-- `EcoreUtils.isinstance` only consults the heap for class types. -/
theorem isinstance_indep (ct : List ClassD) (w w' : World) (v : Value)
    (t : TypeRef) (h : ∀ cid, t ≠ .cls cid) :
    EcoreUtils.isinstance ct w v t = EcoreUtils.isinstance ct w' v t := by
  cases t with
  | dt host => rfl
  | en lits => rfl
  | cls cid => exact absurd rfl (h cid)

/-- The metaclass of the object stored under an id (`None` on a dangling
id): `EcoreUtils.isinstance` consults the heap only through it. -/
def objClassId (w : World) (oid : Nat) : Option Nat :=
  (getObj w oid).map Obj.classId

theorem objClassId_rawSetSlot (w : World) (oid : Nat) (n : String) (s : Slot)
    (i : Nat) : objClassId (rawSetSlot w oid n s) i = objClassId w i := by
  unfold rawSetSlot
  cases ho : getObj w oid with
  | none => rfl
  | some o =>
      unfold objClassId
      rw [getObj_setObj]
      by_cases hi : i = oid
      · subst hi
        rw [if_pos rfl, ho]
        rfl
      · rw [if_neg hi]

theorem objClassId_addIsset (w : World) (oid : Nat) (n : String) (i : Nat) :
    objClassId (addIsset w oid n) i = objClassId w i := by
  unfold addIsset
  cases ho : getObj w oid with
  | none => rfl
  | some o =>
      unfold objClassId
      rw [getObj_setObj]
      by_cases hi : i = oid
      · subst hi
        rw [if_pos rfl, ho]
        rfl
      · rw [if_neg hi]

/-- The store-then-maybe-record-`_isset` world of a raw `__setattr__` on a
ready or non-ready instance leaves every metaclass in place. -/
theorem objClassId_condStore (b : Bool) (w : World) (oid : Nat) (n : String)
    (s : Slot) (i : Nat) :
    objClassId (if b then addIsset (rawSetSlot w oid n s) oid n
                else rawSetSlot w oid n s) i = objClassId w i := by
  cases b
  · rw [if_neg (by simp)]
    exact objClassId_rawSetSlot w oid n s i
  · rw [if_pos rfl, objClassId_addIsset, objClassId_rawSetSlot]

theorem lookupSlot_condStore_self (b : Bool) (w : World) (oid : Nat)
    (n : String) (s : Slot) (h : (getObj w oid).isSome) :
    lookupSlot (if b then addIsset (rawSetSlot w oid n s) oid n
                else rawSetSlot w oid n s) oid n = some s := by
  cases b
  · rw [if_neg (by simp)]
    exact lookupSlot_rawSetSlot_self w oid n s h
  · rw [if_pos rfl, lookupSlot_addIsset]
    exact lookupSlot_rawSetSlot_self w oid n s h

/-- `EcoreUtils.isinstance` depends on the heap only through the metaclass
map: two worlds agreeing on every object's class decide it alike. -/
theorem isinstance_objClassId (ct : List ClassD) (w1 w2 : World)
    (h : ∀ i, objClassId w1 i = objClassId w2 i) (v : Value) (t : TypeRef) :
    EcoreUtils.isinstance ct w1 v t = EcoreUtils.isinstance ct w2 v t := by
  cases t with
  | dt host => rfl
  | en lits => rfl
  | cls cid =>
      cases v with
      | vobj oid =>
          have h1 := h oid
          unfold objClassId at h1
          unfold EcoreUtils.isinstance
          dsimp only
          cases h1a : getObj w1 oid with
          | none =>
              cases h2a : getObj w2 oid with
              | none => rfl
              | some o2 => rw [h1a, h2a] at h1; simp at h1
          | some o1 =>
              cases h2a : getObj w2 oid with
              | none => rw [h1a, h2a] at h1; simp at h1
              | some o2 =>
                  rw [h1a, h2a] at h1
                  have hcl : o1.classId = o2.classId := by simpa using h1
                  dsimp only
                  rw [hcl]
      | vnull => rfl
      | vint n => rfl
      | vstr s => rfl
      | vbool b => rfl
      | vlit n => rfl
      | vcoll a b => rfl

theorem getObj_of_objClassId (w w' : World) (oid : Nat) (o : Obj)
    (h : objClassId w' oid = objClassId w oid)
    (hobj : getObj w oid = some o) :
    ∃ o', getObj w' oid = some o' ∧ o'.classId = o.classId := by
  unfold objClassId at h
  rw [hobj] at h
  cases h' : getObj w' oid with
  | none => rw [h'] at h; simp at h
  | some o' =>
      rw [h'] at h
      exact ⟨o', rfl, by simpa using h⟩

/-- The reference bookkeeping of `Core.setattr` is a no-op for an attribute
(not a reference), and also for a reference with neither containment nor an
opposite. -/
theorem setattrBookkeep_noop (ct : List ClassD) (w : World) (oid : Nat)
    (name : String) (value previous : Value) (ft : FeatD)
    (hsteps : ft.isRef = false ∨
      (ft.containment = false ∧ ft.eOpposite = none)) :
    Core.setattrBookkeep ct w oid name value previous ft = (none, w) := by
  unfold Core.setattrBookkeep
  by_cases hr : ft.isRef = false
  · rw [if_pos (by simp [hr])]
  · rcases hsteps with h | ⟨hc, ho⟩
    · exact absurd h hr
    · rw [if_neg (by simpa using hr)]
      have hstep : Core.setattrContainmentStep w oid name value previous ft =
          (none, w) := by
        unfold Core.setattrContainmentStep
        rw [if_neg (by simp [hc]), if_neg (by simp [hc])]
      rw [hstep]
      dsimp only
      rw [ho]

/-- `Core.setattr` of an ill-typed value on a scalar feature raises
*bad value* before any mutation. -/
theorem setattr_bad (ct : List ClassD) (w : World) (oid : Nat)
    (name : String) (v : Value) (o : Obj) (ft : FeatD)
    (hobj : getObj w oid = some o)
    (hfeat : findEStructuralFeature ct o.classId name = some ft)
    (hmany : ft.many = false)
    (hbad : EcoreUtils.isinstance ct w v ft.eType = false) :
    Core.setattr ct w oid name v = (some .badValue, w) := by
  unfold Core.setattr
  rw [hobj]
  dsimp only
  rw [hfeat]
  dsimp only
  simp [hmany, hbad]

/-- `Core.setattr` of a well-typed value on a scalar feature with trivial
reference bookkeeping (an attribute, or a reference with neither containment
nor opposite): no error, and the resulting world is the raw store plus (on a
ready instance) the `_isset` record. -/
theorem setattr_attr (ct : List ClassD) (w : World) (oid : Nat)
    (name : String) (v : Value) (o : Obj) (ft : FeatD)
    (hobj : getObj w oid = some o)
    (hfeat : findEStructuralFeature ct o.classId name = some ft)
    (hmany : ft.many = false)
    (hsteps : ft.isRef = false ∨
      (ft.containment = false ∧ ft.eOpposite = none))
    (hinst : EcoreUtils.isinstance ct w v ft.eType = true) :
    Core.setattr ct w oid name v =
      (none, if o.isready then
               addIsset (rawSetSlot w oid name (.val v)) oid name
             else rawSetSlot w oid name (.val v)) := by
  unfold Core.setattr
  rw [hobj]
  dsimp only
  rw [hfeat]
  dsimp only
  simp only [hmany, hinst, Bool.false_and, Bool.not_true, Bool.and_false,
    Bool.false_eq_true, if_false, Bool.not_false, Bool.true_and]
  by_cases hr : o.isready
  · rw [if_neg (by simp [hr]), if_pos hr]
    exact setattrBookkeep_noop ct _ oid name v _ ft hsteps
  · rw [if_pos (by simp [hr]), if_neg hr]

/-- One successful scalar store through `Core.setattr` on a feature with
trivial bookkeeping: no error, the slot holds the value, no metaclass
changes. -/
theorem setattr_scalar_step (ct : List ClassD) (w : World) (oid : Nat)
    (name : String) (v : Value) (o : Obj) (ft : FeatD)
    (hobj : getObj w oid = some o)
    (hfeat : findEStructuralFeature ct o.classId name = some ft)
    (hmany : ft.many = false)
    (hsteps : ft.isRef = false ∨
      (ft.containment = false ∧ ft.eOpposite = none))
    (hinst : EcoreUtils.isinstance ct w v ft.eType = true) :
    ∃ w', Core.setattr ct w oid name v = (none, w') ∧
      lookupSlot w' oid name = some (.val v) ∧
      ∀ i, objClassId w' i = objClassId w i := by
  rw [setattr_attr ct w oid name v o ft hobj hfeat hmany hsteps hinst]
  refine ⟨_, rfl, ?_, ?_⟩
  · exact lookupSlot_condStore_self o.isready w oid name (.val v)
      (by rw [hobj]; rfl)
  · intro i
    exact objClassId_condStore o.isready w oid name (.val v) i

/-- `Core.getattr` on an absent scalar slot with a well-typed default and
trivial bookkeeping: the default is stored and returned. -/
theorem getattr_scalar_default (ct : List ClassD) (w : World) (oid : Nat)
    (name : String) (o : Obj) (ft : FeatD)
    (hobj : getObj w oid = some o)
    (hfeat : findEStructuralFeature ct o.classId name = some ft)
    (hmany : ft.many = false)
    (hslot : List.lookup name o.slots = none)
    (hsteps : ft.isRef = false ∨
      (ft.containment = false ∧ ft.eOpposite = none))
    (hinst : EcoreUtils.isinstance ct w ft.defaultValue ft.eType = true) :
    ∃ w1, Core.getattr ct w oid name = (.ok ft.defaultValue, w1) ∧
      lookupSlot w1 oid name = some (.val ft.defaultValue) ∧
      ∀ i, objClassId w1 i = objClassId w i := by
  obtain ⟨w1, hset, hsl, hcl⟩ := setattr_scalar_step ct w oid name
    ft.defaultValue o ft hobj hfeat hmany hsteps hinst
  refine ⟨w1, ?_, hsl, hcl⟩
  unfold Core.getattr
  rw [hobj]
  dsimp only
  rw [hslot]
  dsimp only
  rw [hfeat]
  dsimp only
  rw [if_neg (by simp [hmany]), hset]

/-- `Core.getattr` on an absent scalar slot whose default fails the type
check: the store of the default raises *bad value* and nothing is written. -/
theorem getattr_scalar_default_bad (ct : List ClassD) (w : World) (oid : Nat)
    (name : String) (o : Obj) (ft : FeatD)
    (hobj : getObj w oid = some o)
    (hfeat : findEStructuralFeature ct o.classId name = some ft)
    (hmany : ft.many = false)
    (hslot : List.lookup name o.slots = none)
    (hbad : EcoreUtils.isinstance ct w ft.defaultValue ft.eType = false) :
    Core.getattr ct w oid name = (.error .badValue, w) := by
  unfold Core.getattr
  rw [hobj]
  dsimp only
  rw [hslot]
  dsimp only
  rw [hfeat]
  dsimp only
  rw [if_neg (by simp [hmany]),
    setattr_bad ct w oid name ft.defaultValue o ft hobj hfeat hmany hbad]

/-- A failing `Set` over a materialized scalar slot: `can_execute` passes,
`execute()` raises *bad value*, and the world is exactly unchanged. -/
theorem failing_set_materialized (ct : List ClassD) (w : World) (c : Set)
    (o : Obj) (ft : FeatD) (v0 : Value)
    (hobj : getObj w c.owner = some o)
    (hfeat : findEStructuralFeature ct o.classId c.feature = some ft)
    (hmany : ft.many = false)
    (hslot : List.lookup c.feature o.slots = some (.val v0))
    (hbad : EcoreUtils.isinstance ct w c.value ft.eType = false) :
    (Set.can_execute ct c w).1 = .ok true ∧
    Set.execute ct c w =
      (some .badValue, { c with previous_value := v0 }, w) := by
  constructor
  · unfold Set.can_execute AbstractCommand.canExecuteSuper
    rw [hobj]
    dsimp only
    rw [hfeat]
    dsimp only
    simp [hmany]
  · unfold Set.execute Set.do_execute EObject.eGet Core.getattr
    rw [hobj]
    dsimp only
    rw [hslot]
    dsimp only
    unfold EObject.eSet Core.setattr
    rw [hobj]
    dsimp only
    rw [hfeat]
    dsimp only
    simp [hmany, hbad]

/-- A failing `Set` over an absent scalar slot with a well-typed default:
`do_execute`'s read of `previous_value` materializes the slot to the
default (exactly what the read returns), then the store raises *bad value*
without writing the new value - the feature's observable value is
unchanged. -/
theorem failing_set_default_stored (ct : List ClassD) (w : World) (c : Set)
    (o : Obj) (ft : FeatD)
    (hobj : getObj w c.owner = some o)
    (hfeat : findEStructuralFeature ct o.classId c.feature = some ft)
    (hmany : ft.many = false)
    (hslot : List.lookup c.feature o.slots = none)
    (hsteps : ft.isRef = false ∨
      (ft.containment = false ∧ ft.eOpposite = none))
    (hinstd : EcoreUtils.isinstance ct w ft.defaultValue ft.eType = true)
    (hbad : EcoreUtils.isinstance ct w c.value ft.eType = false) :
    (Set.can_execute ct c w).1 = .ok true ∧
    (EObject.eGet ct w c.owner c.feature).1 = .ok ft.defaultValue ∧
    (Set.execute ct c w).1 = some .badValue ∧
    (Set.execute ct c w).2.1 = { c with previous_value := ft.defaultValue } ∧
    lookupSlot (Set.execute ct c w).2.2 c.owner c.feature =
      some (.val ft.defaultValue) := by
  obtain ⟨w1, hget, hsl, hcl⟩ := getattr_scalar_default ct w c.owner
    c.feature o ft hobj hfeat hmany hslot hsteps hinstd
  have hget' : EObject.eGet ct w c.owner c.feature =
      (.ok ft.defaultValue, w1) := hget
  obtain ⟨o1, ho1, hcl1⟩ := getObj_of_objClassId w w1 c.owner o
    (hcl c.owner) hobj
  have hfeat1 : findEStructuralFeature ct o1.classId c.feature = some ft := by
    rw [hcl1]
    exact hfeat
  have hbad1 : EcoreUtils.isinstance ct w1 c.value ft.eType = false := by
    rw [isinstance_objClassId ct w1 w hcl]
    exact hbad
  have hbadset : Core.setattr ct w1 c.owner c.feature c.value =
      (some .badValue, w1) :=
    setattr_bad ct w1 c.owner c.feature c.value o1 ft ho1 hfeat1 hmany hbad1
  have hexec : Set.execute ct c w =
      (some .badValue, { c with previous_value := ft.defaultValue }, w1) := by
    unfold Set.execute Set.do_execute
    rw [hget']
    dsimp only
    unfold EObject.eSet
    rw [hbadset]
  refine ⟨?_, ?_, ?_, ?_, ?_⟩
  · unfold Set.can_execute AbstractCommand.canExecuteSuper
    rw [hobj]
    dsimp only
    rw [hfeat]
    dsimp only
    simp [hmany]
  · rw [hget']
  · rw [hexec]
  · rw [hexec]
  · rw [hexec]
    exact hsl

/-- A failing `Set` over an absent scalar slot whose default itself fails
the type check: the read of `previous_value` already raises *bad value*
and the world is exactly unchanged. -/
theorem failing_set_default_bad (ct : List ClassD) (w : World) (c : Set)
    (o : Obj) (ft : FeatD)
    (hobj : getObj w c.owner = some o)
    (hfeat : findEStructuralFeature ct o.classId c.feature = some ft)
    (hmany : ft.many = false)
    (hslot : List.lookup c.feature o.slots = none)
    (hbadd : EcoreUtils.isinstance ct w ft.defaultValue ft.eType = false) :
    (Set.can_execute ct c w).1 = .ok true ∧
    Set.execute ct c w = (some .badValue, c, w) := by
  have hget : EObject.eGet ct w c.owner c.feature = (.error .badValue, w) :=
    getattr_scalar_default_bad ct w c.owner c.feature o ft hobj hfeat hmany
      hslot hbadd
  constructor
  · unfold Set.can_execute AbstractCommand.canExecuteSuper
    rw [hobj]
    dsimp only
    rw [hfeat]
    dsimp only
    simp [hmany]
  · unfold Set.execute Set.do_execute
    rw [hget]

/-- Amended claim C3.  `can_execute` does not establish feasibility (the
counterexample's ill-typed `Set` passes it and `execute()` raises *bad
value*), but a failing `Set` never stores the offending value and leaves
the owner's feature value unchanged: with the slot materialized the world
is exactly unchanged; with the slot absent, `do_execute`'s read of
`previous_value` at most materializes the slot to the feature's default -
the very value the read returns - before the store raises; and when even
the default fails the type check, the read itself raises and the world is
exactly unchanged. -/
theorem C3_amended_failing_set_preserves_feature_value :
    (∀ (ct : List ClassD) (w : World) (c : Set) (o : Obj) (ft : FeatD)
        (v0 : Value),
        getObj w c.owner = some o →
        findEStructuralFeature ct o.classId c.feature = some ft →
        ft.many = false →
        List.lookup c.feature o.slots = some (.val v0) →
        EcoreUtils.isinstance ct w c.value ft.eType = false →
        (Set.can_execute ct c w).1 = .ok true ∧
        Set.execute ct c w =
          (some .badValue, { c with previous_value := v0 }, w)) ∧
    (∀ (ct : List ClassD) (w : World) (c : Set) (o : Obj) (ft : FeatD),
        getObj w c.owner = some o →
        findEStructuralFeature ct o.classId c.feature = some ft →
        ft.many = false →
        List.lookup c.feature o.slots = none →
        (ft.isRef = false ∨
          (ft.containment = false ∧ ft.eOpposite = none)) →
        EcoreUtils.isinstance ct w ft.defaultValue ft.eType = true →
        EcoreUtils.isinstance ct w c.value ft.eType = false →
        (Set.can_execute ct c w).1 = .ok true ∧
        (EObject.eGet ct w c.owner c.feature).1 = .ok ft.defaultValue ∧
        (Set.execute ct c w).1 = some .badValue ∧
        (Set.execute ct c w).2.1 =
          { c with previous_value := ft.defaultValue } ∧
        lookupSlot (Set.execute ct c w).2.2 c.owner c.feature =
          some (.val ft.defaultValue)) ∧
    (∀ (ct : List ClassD) (w : World) (c : Set) (o : Obj) (ft : FeatD),
        getObj w c.owner = some o →
        findEStructuralFeature ct o.classId c.feature = some ft →
        ft.many = false →
        List.lookup c.feature o.slots = none →
        EcoreUtils.isinstance ct w ft.defaultValue ft.eType = false →
        (Set.can_execute ct c w).1 = .ok true ∧
        Set.execute ct c w = (some .badValue, c, w)) :=
  ⟨fun ct w c o ft v0 h1 h2 h3 h4 h5 =>
      failing_set_materialized ct w c o ft v0 h1 h2 h3 h4 h5,
   fun ct w c o ft h1 h2 h3 h4 h5 h6 h7 =>
      failing_set_default_stored ct w c o ft h1 h2 h3 h4 h5 h6 h7,
   fun ct w c o ft h1 h2 h3 h4 h5 =>
      failing_set_default_bad ct w c o ft h1 h2 h3 h4 h5⟩

/-- Class `P` for the corrected-claim scenarios: scalar string attributes
`pname` (materialized on the instance), `nick` (unset, well-typed default
`"n0"`) and `crooked` (unset, ill-typed default `0`); many-valued string
attributes `items` (ordered non-unique: `EList`), `labels` (ordered
unique: `EOrderedSet`) and `tags` (unordered unique: `ESet`). -/
def cexClassTable : List ClassD :=
  [{ cname := "P",
     features := [
       { name := "pname", eType := .dt .hstr },
       { name := "nick", eType := .dt .hstr, defaultValue := .vstr "n0" },
       { name := "crooked", eType := .dt .hstr, defaultValue := .vint 0 },
       { name := "items", eType := .dt .hstr, upperBound := -1,
         unique := false },
       { name := "labels", eType := .dt .hstr, upperBound := -1 },
       { name := "tags", eType := .dt .hstr, upperBound := -1,
         ordered := false } ] }]

/-- An instance of `P`: `pname` holds `"first"`, `items = [x, y]` is
list-backed, `labels = {x}` is ordered-set-backed, `tags = {x}` is
set-backed; `nick` and `crooked` are unset. -/
def cexWorld : World :=
  { objs := [(1,
    { classId := 0,
      slots := [("pname", .val (.vstr "first")),
                ("items", .lst [.vstr "x", .vstr "y"]),
                ("labels", .oset { items := [.vstr "x"],
                                   map := [(.vstr "x", 0)] }),
                ("tags", .eset [.vstr "x"])] })] }

/-- Witness for amended claim C3: over the instance of `P`, the ill-typed
`Set(p, "pname", 1)` fails with the world exactly unchanged; the ill-typed
`Set(p, "nick", 1)` (slot unset, default `"n0"`) fails after materializing
`nick` to `"n0"`, the value the read returned; and `Set(p, "crooked", "z")`
(ill-typed default) fails on the read with the world exactly unchanged. -/
theorem C3_amended_witness :
    ((Set.can_execute cexClassTable
        { owner := 1, feature := "pname", value := .vint 1 } cexWorld).1 =
      .ok true ∧
     Set.execute cexClassTable
        { owner := 1, feature := "pname", value := .vint 1 } cexWorld =
      (some .badValue,
       { owner := 1, feature := "pname", value := .vint 1,
         previous_value := .vstr "first" },
       cexWorld)) ∧
    ((Set.can_execute cexClassTable
        { owner := 1, feature := "nick", value := .vint 1 } cexWorld).1 =
      .ok true ∧
     (EObject.eGet cexClassTable cexWorld 1 "nick").1 = .ok (.vstr "n0") ∧
     (Set.execute cexClassTable
        { owner := 1, feature := "nick", value := .vint 1 } cexWorld).1 =
      some .badValue ∧
     (Set.execute cexClassTable
        { owner := 1, feature := "nick", value := .vint 1 } cexWorld).2.1 =
      { owner := 1, feature := "nick", value := .vint 1,
        previous_value := .vstr "n0" } ∧
     lookupSlot (Set.execute cexClassTable
        { owner := 1, feature := "nick", value := .vint 1 } cexWorld).2.2 1
       "nick" = some (.val (.vstr "n0"))) ∧
    ((Set.can_execute cexClassTable
        { owner := 1, feature := "crooked", value := .vstr "z" }
        cexWorld).1 = .ok true ∧
     Set.execute cexClassTable
        { owner := 1, feature := "crooked", value := .vstr "z" } cexWorld =
      (some .badValue,
       { owner := 1, feature := "crooked", value := .vstr "z" },
       cexWorld)) := by
  obtain ⟨hA, hB, hC⟩ := C3_amended_failing_set_preserves_feature_value
  refine ⟨?_, ?_, ?_⟩
  · exact hA cexClassTable cexWorld
      { owner := 1, feature := "pname", value := .vint 1 } _ _ _
      rfl rfl (by decide) rfl (by decide)
  · exact hB cexClassTable cexWorld
      { owner := 1, feature := "nick", value := .vint 1 } _ _
      rfl rfl (by decide) rfl (Or.inl (by decide)) (by decide) (by decide)
  · exact hC cexClassTable cexWorld
      { owner := 1, feature := "crooked", value := .vstr "z" } _ _
      rfl rfl (by decide) rfl (by decide)

/-- The object visible after a scalar attribute store (raw store plus the
conditional `_isset` record): same class and readiness, slot updated. -/
theorem getObj_afterWrite (w : World) (oid : Nat) (n : String) (v : Value)
    (o : Obj) (h : getObj w oid = some o) :
    ∃ o2, getObj (if o.isready then
          addIsset (rawSetSlot w oid n (.val v)) oid n
        else rawSetSlot w oid n (.val v)) oid = some o2 ∧
      o2.classId = o.classId ∧ o2.isready = o.isready ∧
      List.lookup n o2.slots = some (.val v) := by
  by_cases hr : o.isready
  · rw [if_pos hr]
    refine ⟨_, getObj_addIsset_self _ _ _ _
      (getObj_rawSetSlot_self w oid n _ o h), rfl, rfl, ?_⟩
    simp [lookup_assocSet]
  · rw [if_neg hr]
    refine ⟨_, getObj_rawSetSlot_self w oid n _ o h, rfl, rfl, ?_⟩
    simp [lookup_assocSet]

end PyEcore
